import Mathlib

/-!
# Process-Monitor-App: simulation, aggregation and query core

A shallow embedding of the logic shared by `src/src/App.js` (component `App`) and
`src/process-monitor-app/src/ProcessMonitor.jsx` (component `ProcessMonitor`).

Modelling conventions
* JavaScript numbers held in process records are finite; they are embedded as rationals
  (`ℚ`), i.e. arithmetic is exact and IEEE rounding is abstracted away.  The one place
  where a non-finite value arises in the source (`totalCpu / processes.length` on an empty
  array) is modelled with `JSNumber`, which has `NaN` and the two infinities.
* Where the value of a sum or a quotient itself is stated, the aggregator is evaluated in
  the arithmetic of the host (`aggregateHost`): every operation yields the exact result
  rounded by the host (`HostArith`), with `roundDouble` the IEEE 754 binary64 rounding.
  The exact aggregator `aggregate` is its instance without rounding.  Signed zeros are
  not distinguished.
* `Math.random`, `Date.now`, `toLocaleTimeString`, `localeCompare` and `toLowerCase` are
  host built-ins; they are fields of `Env`.  `Math.random` is a stream of draws read through
  an explicit cursor, so that every call consumes the next draw.
* A lookup `xs[i]` that misses the array yields `undefined`; this is `none`.
* React state is an explicit record (`MonitorState`); the effect that depends on
  `[processes]` is run after every change of the population.
-/

namespace ProcessMonitor

/-! ## Host environment -/

/-- The host built-ins used by the components. -/
structure Env where
  /-- The successive results of `Math.random()`. -/
  random : ℕ → ℚ
  /-- The result of `Date.now()` while the record of the given index is created. -/
  now : ℕ → ℚ
  /-- Formatting of `new Date(ms).toLocaleTimeString()`. -/
  toLocaleTimeString : ℚ → String
  /-- The built-in `a.localeCompare(b)`. -/
  localeCompare : String → String → ℚ
  /-- The built-in `s.toLowerCase()`. -/
  toLowerCase : String → String

/-- Every draw of the random source lies in `[0, 1)`. -/
def Env.UnitDraws (env : Env) : Prop :=
  ∀ k, 0 ≤ env.random k ∧ env.random k < 1

/-! ## JavaScript numbers that may be non-finite -/

/-- A JavaScript number: `NaN`, an infinity, or a finite value. -/
inductive JSNumber where
  | nan : JSNumber
  | posInf : JSNumber
  | negInf : JSNumber
  | fin (q : ℚ) : JSNumber
  deriving DecidableEq

/-- The quotient `a / b` of two finite numbers. -/
def jsDiv (a b : ℚ) : JSNumber :=
  if b = 0 then
    if a = 0 then JSNumber.nan
    else if 0 < a then JSNumber.posInf
    else JSNumber.negInf
  else JSNumber.fin (a / b)

/-- The expression `x || 0`: the falsy numbers `NaN` and `0` give `0`. -/
def orZero : JSNumber → JSNumber
  | JSNumber.nan => JSNumber.fin 0
  | JSNumber.fin q => if q = 0 then JSNumber.fin 0 else JSNumber.fin q
  | x => x

/-- The call `Math.min(a, x)` for a finite `a`. -/
def mathMin (a : ℚ) : JSNumber → JSNumber
  | JSNumber.nan => JSNumber.nan
  | JSNumber.posInf => JSNumber.fin a
  | JSNumber.negInf => JSNumber.negInf
  | JSNumber.fin q => JSNumber.fin (min a q)

/-- The value `parseFloat(x.toFixed(1))`: `x` rounded to the nearest tenth, ties upwards,
as an exact rational (the rounding of the result to a double is abstracted away). -/
def toFixed1 (x : ℚ) : ℚ :=
  (⌊x * 10 + 1 / 2⌋ : ℤ) / 10

/-- The array lookup `xs[i]` for an integral index; `none` is `undefined`. -/
def jsIndex {α : Type} (xs : List α) (i : ℤ) : Option α :=
  if i < 0 then none else xs.get? i.toNat

/-! ## Data model -/

/-- The four process states of the generator. -/
inductive ProcState where
  | Running : ProcState
  | Sleeping : ProcState
  | Waiting : ProcState
  | Zombie : ProcState
  deriving DecidableEq

/-- One simulated process. -/
structure ProcessRecord where
  pid : ℕ
  name : String
  cpu : ℚ
  memory : ℚ
  /-- The state string; `none` is `undefined`. -/
  state : Option ProcState
  user : String
  startTime : String
  deriving DecidableEq

/-- The object kept in `systemStats`. -/
structure SystemStats where
  cpuUsage : JSNumber
  memoryUsage : ℚ
  totalMemory : ℚ
  activeProcesses : ℕ
  deriving DecidableEq

/-- The `type` field of an alert. -/
inductive AlertType where
  | cpu : AlertType
  | memory : AlertType
  | zombie : AlertType
  deriving DecidableEq

/-- One entry of `alerts`; a zombie alert has no `value`. -/
structure Alert where
  type : AlertType
  pid : ℕ
  name : String
  value : Option ℚ
  deriving DecidableEq

/-! ## Population generator (`generateProcesses`) -/

/-- The catalog `processNames`. -/
def processNames : List String :=
  ["chrome.exe", "firefox.exe", "code.exe", "node.exe", "python.exe",
   "docker.exe", "postgres.exe", "nginx.exe", "java.exe", "explorer.exe",
   "system", "svchost.exe", "Teams.exe", "Slack.exe", "Spotify.exe"]

/-- The array `states` of the generator. -/
def states : List ProcState :=
  [ProcState.Running, ProcState.Sleeping, ProcState.Waiting, ProcState.Zombie]

/-- The body of the `map` callback of `generateProcesses` for catalog entry `i`, reading
draws from cursor `k` on; returns the record and the next cursor. -/
def generateRecord (env : Env) (k : ℕ) (name : String) (i : ℕ) : ProcessRecord × ℕ :=
  let cpu := env.random k * 100
  let memory := env.random (k + 1) * 2048
  let state := jsIndex states ⌊env.random (k + 2) * (states.length : ℚ)⌋
  ({ pid := 1000 + i
     name := name
     cpu := toFixed1 cpu
     memory := toFixed1 memory
     state := state
     user := if i % 3 = 0 then "root" else "user"
     startTime := env.toLocaleTimeString (env.now i - env.random (k + 3) * 86400000) },
   k + 4)

/-- The traversal `names.map((name, i) => ...)`, from index `i` and cursor `k`. -/
def generateFrom (env : Env) : List String → ℕ → ℕ → List ProcessRecord × ℕ
  | [], _, k => ([], k)
  | name :: rest, i, k =>
    let r := generateRecord env k name i
    let rs := generateFrom env rest (i + 1) r.2
    (r.1 :: rs.1, rs.2)

/-- The function `generateProcesses`, reading draws from cursor `k` on. -/
def generateProcesses (env : Env) (k : ℕ) : List ProcessRecord × ℕ :=
  generateFrom env processNames 0 k

/-! ## Evolution step (the `setInterval` callback) -/

/-- The array of the three states a tick may choose from. -/
def tickStates : List ProcState :=
  [ProcState.Running, ProcState.Sleeping, ProcState.Waiting]

/-- The `map` callback of the tick for one record.  Draws are consumed in evaluation order:
cpu, memory, the state-change test, and, only when that test succeeds, the choice. -/
def evolveRecord (env : Env) (k : ℕ) (p : ProcessRecord) : ProcessRecord × ℕ :=
  let cpu := max 0 (p.cpu + (env.random k - 1 / 2) * 10)
  let memory := max 0 (p.memory + (env.random (k + 1) - 1 / 2) * 100)
  if env.random (k + 2) > 95 / 100 then
    ({ p with cpu := cpu, memory := memory,
              state := jsIndex tickStates ⌊env.random (k + 3) * 3⌋ }, k + 4)
  else
    ({ p with cpu := cpu, memory := memory, state := p.state }, k + 3)

/-- The traversal `prev.map(p => ...)` of one tick, from cursor `k`. -/
def evolve (env : Env) : ℕ → List ProcessRecord → List ProcessRecord × ℕ
  | k, [] => ([], k)
  | k, p :: ps =>
    let r := evolveRecord env k p
    let rs := evolve env r.2 ps
    (r.1 :: rs.1, rs.2)

/-! ## Aggregator and alert classifier (the `[processes]` effect) -/

/-- The reduction `processes.reduce((sum, p) => sum + p.cpu, 0)` in exact arithmetic
(`hostTotalCpu` is the same reduction in the arithmetic of the host). -/
def totalCpu (ps : List ProcessRecord) : ℚ :=
  ps.foldl (fun sum p => sum + p.cpu) 0

/-- The reduction `processes.reduce((sum, p) => sum + p.memory, 0)` in exact arithmetic
(`hostTotalMem` is the same reduction in the arithmetic of the host). -/
def totalMem (ps : List ProcessRecord) : ℚ :=
  ps.foldl (fun sum p => sum + p.memory) 0

/-- The count `processes.filter(p => p.state === 'Running').length`. -/
def running (ps : List ProcessRecord) : ℕ :=
  (ps.filter (fun p => p.state = some ProcState.Running)).length

/-- The object passed to `setSystemStats`, in exact arithmetic (`aggregateHost` is the
same object in the arithmetic of the host). -/
def aggregate (ps : List ProcessRecord) : SystemStats :=
  { cpuUsage := mathMin 100 (orZero (jsDiv (totalCpu ps) (ps.length : ℚ)))
    memoryUsage := totalMem ps
    totalMemory := 16384
    activeProcesses := running ps }

/-- The body of the `forEach` callback: the three tests push onto `newAlerts` in turn. -/
def pushAlerts (newAlerts : List Alert) (p : ProcessRecord) : List Alert :=
  let a1 := if p.cpu > 80 then
      newAlerts ++ [{ type := AlertType.cpu, pid := p.pid, name := p.name, value := some p.cpu }]
    else newAlerts
  let a2 := if p.memory > 1500 then
      a1 ++ [{ type := AlertType.memory, pid := p.pid, name := p.name, value := some p.memory }]
    else a1
  if p.state = some ProcState.Zombie then
    a2 ++ [{ type := AlertType.zombie, pid := p.pid, name := p.name, value := none }]
  else a2

/-- The array `newAlerts` after `processes.forEach(...)`. -/
def newAlerts (ps : List ProcessRecord) : List Alert :=
  ps.foldl pushAlerts []

/-- The slice `alerts.slice(0, 3)` that the banner renders. -/
def shownAlerts (alerts : List Alert) : List Alert :=
  alerts.take 3

/-! ## Query layer (`filteredProcesses`) and command handler (`killProcess`) -/

/-- The test `s.includes(t)` on the characters of two strings. -/
def includesChars : List Char → List Char → Bool
  | [], t => t.isEmpty
  | c :: cs, t => t.isPrefixOf (c :: cs) || includesChars cs t

/-- The built-in `s.includes(t)`. -/
def includes (s t : String) : Bool :=
  includesChars s.data t.data

/-- The `filter` callback of `filteredProcesses`. -/
def matchesSearch (env : Env) (searchTerm : String) (p : ProcessRecord) : Bool :=
  includes (env.toLowerCase p.name) (env.toLowerCase searchTerm) ||
    includes (toString p.pid) searchTerm

/-- The `sort` comparator of `filteredProcesses`. -/
def compareFn (env : Env) (sortBy : String) (a b : ProcessRecord) : ℚ :=
  if sortBy = "cpu" then b.cpu - a.cpu
  else if sortBy = "memory" then b.memory - a.memory
  else if sortBy = "name" then env.localeCompare a.name b.name
  else (a.pid : ℚ) - (b.pid : ℚ)

/-- The built-in `Array.prototype.sort(cmp)`: a stable sort that puts `a` before `b` when
`cmp(a, b)` is not positive. -/
def jsSort {α : Type} (cmp : α → α → ℚ) (xs : List α) : List α :=
  xs.insertionSort (fun a b => cmp a b ≤ 0)

/-- The array `processes.filter(...)` of `filteredProcesses`, before sorting. -/
def filterStep (env : Env) (searchTerm : String) (ps : List ProcessRecord) :
    List ProcessRecord :=
  ps.filter (matchesSearch env searchTerm)

/-- The value `filteredProcesses`. -/
def filteredProcesses (env : Env) (searchTerm sortBy : String) (ps : List ProcessRecord) :
    List ProcessRecord :=
  jsSort (compareFn env sortBy) (filterStep env searchTerm ps)

/-- The updater `prev => prev.filter(p => p.pid !== pid)` of `killProcess`. -/
def killFilter (pid : ℕ) (prev : List ProcessRecord) : List ProcessRecord :=
  prev.filter (fun p => p.pid ≠ pid)

/-! ## The two components as state machines -/

/-- The two components of the repository. -/
inductive Component where
  | App : Component
  | ProcessMonitor : Component
  deriving DecidableEq

/-- The React state of a component, with the cursor of the random source. -/
structure MonitorState where
  processes : List ProcessRecord
  systemStats : SystemStats
  alerts : List Alert
  selectedProcess : Option ProcessRecord
  cursor : ℕ
  deriving DecidableEq

/-- The state given by the `useState` initialisers. -/
def initialState : MonitorState :=
  { processes := []
    systemStats := { cpuUsage := JSNumber.fin 0, memoryUsage := 0, totalMemory := 16384,
                     activeProcesses := 0 }
    alerts := []
    selectedProcess := none
    cursor := 0 }

/-- The stores `setSystemStats(...)` and `setAlerts(newAlerts)` of the effect. -/
def recompute (s : MonitorState) : MonitorState :=
  { s with systemStats := aggregate s.processes, alerts := newAlerts s.processes }

/-- The effect with dependency `[processes]`.  In `ProcessMonitor` it starts with
`if (processes.length === 0) return;`. -/
def statsEffect : Component → MonitorState → MonitorState
  | Component.App, s => recompute s
  | Component.ProcessMonitor, s => if s.processes.length = 0 then s else recompute s

/-- Mounting: the effects run on the initial render, the first one stores the generated
population, and the `[processes]` effect runs again on the new population. -/
def mount (env : Env) (c : Component) : MonitorState :=
  let s0 := statsEffect c initialState
  let g := generateProcesses env s0.cursor
  statsEffect c { s0 with processes := g.1, cursor := g.2 }

/-- The inbound commands that change the population. -/
inductive Command where
  | tick : Command
  | kill (pid : ℕ) : Command
  deriving DecidableEq

/-- The state update of a timer tick, before the effect. -/
def tickUpdate (env : Env) (s : MonitorState) : MonitorState :=
  let r := evolve env s.cursor s.processes
  { s with processes := r.1, cursor := r.2 }

/-- The function `killProcess`, before the effect. -/
def killProcess (pid : ℕ) (s : MonitorState) : MonitorState :=
  { s with processes := killFilter pid s.processes, selectedProcess := none }

/-- One command followed by the `[processes]` effect. -/
def step (env : Env) (c : Component) (s : MonitorState) : Command → MonitorState
  | Command.tick => statsEffect c (tickUpdate env s)
  | Command.kill pid => statsEffect c (killProcess pid s)

/-- The state after mounting and a sequence of commands. -/
def run (env : Env) (c : Component) (cmds : List Command) : MonitorState :=
  cmds.foldl (step env c) (mount env c)

/-- An environment whose random source always returns `r`. -/
def constEnv (r : ℚ) : Env :=
  { random := fun _ => r
    now := fun _ => 0
    toLocaleTimeString := fun _ => ""
    localeCompare := fun a b => if a < b then -1 else if a = b then 0 else 1
    toLowerCase := String.toLower }

/-! ## Specification-side definitions and sample inputs -/

/-- The events of one record, following the words of the specification (section 4.4):
`HighCpu` with the cpu value when `cpuPercent > 80`, then `HighMemory` with the memory
value when `memoryMB > 1500`, then `ZombieProcess` without a value when the state is
`Zombie`; each refers to the pid and name of the record. -/
def specEvents (p : ProcessRecord) : List Alert :=
  (if p.cpu > 80 then
      [{ type := AlertType.cpu, pid := p.pid, name := p.name, value := some p.cpu }]
    else []) ++
  (if p.memory > 1500 then
      [{ type := AlertType.memory, pid := p.pid, name := p.name, value := some p.memory }]
    else []) ++
  (if p.state = some ProcState.Zombie then
      [{ type := AlertType.zombie, pid := p.pid, name := p.name, value := none }]
    else [])

/-- The number of records whose state is `Zombie`. -/
def zombieCount (ps : List ProcessRecord) : ℕ :=
  ps.countP (fun p => p.state = some ProcState.Zombie)

/-- A zombie record above both thresholds, with a cpu value above 100. -/
def hotRecord : ProcessRecord :=
  { pid := 1000, name := "chrome.exe", cpu := 250, memory := 1792,
    state := some ProcState.Zombie, user := "root", startTime := "" }

/-- A running record with the given cpu value and a low memory value. -/
def cpuRecord (cpu : ℚ) : ProcessRecord :=
  { pid := 1001, name := "firefox.exe", cpu := cpu, memory := 512,
    state := some ProcState.Running, user := "user", startTime := "" }

/-- The commands that kill every generated process, in pid order. -/
def killAll : List Command :=
  (List.range 15).map (fun i => Command.kill (1000 + i))

/-- A state holding the two sample records. -/
def sampleState : MonitorState :=
  { initialState with processes := [hotRecord, cpuRecord 85] }

/-- The lower-casing of a string of ASCII characters, on which `toLowerCase` only
changes the letters `A` to `Z`. -/
def asciiLower (s : String) : String :=
  ⟨s.data.map Char.toLower⟩

/-- The built-in `localeCompare` orders strings consistently: any two strings are
comparable and the order is transitive. -/
def Env.ConsistentCompare (env : Env) : Prop :=
  (∀ a b : String, env.localeCompare a b ≤ 0 ∨ env.localeCompare b a ≤ 0) ∧
  (∀ a b c : String, env.localeCompare a b ≤ 0 → env.localeCompare b c ≤ 0 →
    env.localeCompare a c ≤ 0)

/-- Three records with cpu values 10, 90, 50, in creation order. -/
def sortSample : List ProcessRecord :=
  [{ cpuRecord 10 with pid := 1000 }, { cpuRecord 90 with pid := 1001 },
   { cpuRecord 50 with pid := 1002 }]

/-- The fields of a record that are assigned at creation. -/
def identityOf (p : ProcessRecord) : ℕ × String × String × String :=
  (p.pid, p.name, p.user, p.startTime)

/-- The product `x * b` of a JavaScript number and a finite number. -/
def jsMul (x : JSNumber) (b : ℚ) : JSNumber :=
  match x with
  | JSNumber.nan => JSNumber.nan
  | JSNumber.posInf =>
    if b = 0 then JSNumber.nan else if 0 < b then JSNumber.posInf else JSNumber.negInf
  | JSNumber.negInf =>
    if b = 0 then JSNumber.nan else if 0 < b then JSNumber.negInf else JSNumber.posInf
  | JSNumber.fin q => JSNumber.fin (q * b)

/-- The expression `(systemStats.memoryUsage / systemStats.totalMemory) * 100` shown by
the memory bar of `App`. -/
def memoryRatioPercent (stats : SystemStats) : JSNumber :=
  jsMul (jsDiv stats.memoryUsage stats.totalMemory) 100

/-- The value `memoryUsagePercent` of `ProcessMonitor`:
`(systemStats.memoryUsage / systemStats.totalMemory) * 100 || 0`. -/
def memoryUsagePercent (stats : SystemStats) : JSNumber :=
  orZero (memoryRatioPercent stats)

/-! ## Arithmetic of the host -/

/-- The arithmetic of the host: every operation on finite numbers yields the exact result
rounded by `round` to a number of the host, a finite one or, on overflow, an infinity. -/
structure HostArith where
  /-- The rounding of an exact result. -/
  round : ℚ → JSNumber
  /-- Rounding never yields `NaN`. -/
  round_ne_nan : ∀ q, round q ≠ JSNumber.nan

/-- The sum `sum + x` of a JavaScript number and a finite number. -/
def addFinite (A : HostArith) (sum : JSNumber) (x : ℚ) : JSNumber :=
  match sum with
  | JSNumber.fin a => A.round (a + x)
  | JSNumber.posInf => JSNumber.posInf
  | JSNumber.negInf => JSNumber.negInf
  | JSNumber.nan => JSNumber.nan

/-- The quotient `x / n` of a JavaScript number by an array length. -/
def divCount (A : HostArith) (x : JSNumber) (n : ℕ) : JSNumber :=
  match x with
  | JSNumber.fin a => if n = 0 then jsDiv a 0 else A.round (a / (n : ℚ))
  | JSNumber.posInf => JSNumber.posInf
  | JSNumber.negInf => JSNumber.negInf
  | JSNumber.nan => JSNumber.nan

/-- The reduction `processes.reduce((sum, p) => sum + p.cpu, 0)` in the arithmetic of the
host. -/
def hostTotalCpu (A : HostArith) (ps : List ProcessRecord) : JSNumber :=
  ps.foldl (fun sum p => addFinite A sum p.cpu) (JSNumber.fin 0)

/-- The reduction `processes.reduce((sum, p) => sum + p.memory, 0)` in the arithmetic of
the host. -/
def hostTotalMem (A : HostArith) (ps : List ProcessRecord) : JSNumber :=
  ps.foldl (fun sum p => addFinite A sum p.memory) (JSNumber.fin 0)

/-- The object kept in `systemStats`, with the numbers of the host. -/
structure HostStats where
  cpuUsage : JSNumber
  memoryUsage : JSNumber
  totalMemory : ℚ
  activeProcesses : ℕ
  deriving DecidableEq

/-- The object passed to `setSystemStats`, evaluated in the arithmetic of the host:
`cpuUsage: Math.min(100, totalCpu / processes.length || 0)`, `memoryUsage: totalMem`,
`totalMemory: 16384`, `activeProcesses: running`. -/
def aggregateHost (A : HostArith) (ps : List ProcessRecord) : HostStats :=
  { cpuUsage := mathMin 100 (orZero (divCount A (hostTotalCpu A ps) ps.length))
    memoryUsage := hostTotalMem A ps
    totalMemory := 16384
    activeProcesses := running ps }

/-- The sum of a list of finite numbers in the arithmetic of the host, taken from left to
right starting at `0`. -/
def hostSum (A : HostArith) (xs : List ℚ) : JSNumber :=
  xs.foldl (addFinite A) (JSNumber.fin 0)

/-- Exact arithmetic: no result is rounded. -/
def exactArith : HostArith :=
  { round := JSNumber.fin
    round_ne_nan := fun _ h => JSNumber.noConfusion h }

/-- Rounding of a rational to the nearest integer, ties to the even one. -/
def roundHalfEven (x : ℚ) : ℤ :=
  if x - ⌊x⌋ < 1 / 2 then ⌊x⌋
  else if 1 / 2 < x - ⌊x⌋ then ⌊x⌋ + 1
  else if ⌊x⌋ % 2 = 0 then ⌊x⌋ else ⌊x⌋ + 1

/-- The IEEE 754 binary64 rounding of an exact value (round to nearest, ties to even):
53 significant bits above the exponent `-1022`, multiples of `2 ^ (-1074)` below it, and
an infinity when the rounded magnitude reaches `2 ^ 1024`. -/
def roundDouble (q : ℚ) : JSNumber :=
  if q = 0 then JSNumber.fin 0
  else
    let ulp : ℚ := 2 ^ (max (Int.log 2 |q|) (-1022) - 52)
    let r : ℚ := (roundHalfEven (q / ulp) : ℚ) * ulp
    if 2 ^ (1024 : ℕ) ≤ |r| then (if 0 < q then JSNumber.posInf else JSNumber.negInf)
    else JSNumber.fin r

/-- The arithmetic of doubles, the numbers of JavaScript. -/
def ieeeDouble : HostArith :=
  { round := roundDouble
    round_ne_nan := by
      intro q
      unfold roundDouble
      dsimp only
      split_ifs <;> exact fun h => JSNumber.noConfusion h }

/-- The population generated when every draw is `0.119`: every record has cpu `11.9` and
memory `243.7`, held as the doubles nearest to these decimals, and state `Running`. -/
def doubleSample : List ProcessRecord :=
  List.zipWith (fun name i =>
    { pid := 1000 + i, name := name, cpu := 6699104445713613 / 562949953421312,
      memory := 4287215739024179 / 17592186044416, state := some ProcState.Running,
      user := if i % 3 = 0 then "root" else "user", startTime := "" })
    processNames (List.range 15)

/-! ## Aggregator -/

theorem foldl_add_cpu (ps : List ProcessRecord) (acc : ℚ) :
    ps.foldl (fun sum p => sum + p.cpu) acc = acc + (ps.map (fun p => p.cpu)).sum := by
  induction ps generalizing acc with
  | nil => simp
  | cons p ps ih => simp [ih, add_assoc]

theorem foldl_add_memory (ps : List ProcessRecord) (acc : ℚ) :
    ps.foldl (fun sum p => sum + p.memory) acc = acc + (ps.map (fun p => p.memory)).sum := by
  induction ps generalizing acc with
  | nil => simp
  | cons p ps ih => simp [ih, add_assoc]

theorem totalCpu_eq_sum (ps : List ProcessRecord) :
    totalCpu ps = (ps.map (fun p => p.cpu)).sum := by
  simp [totalCpu, foldl_add_cpu]

theorem totalMem_eq_sum (ps : List ProcessRecord) :
    totalMem ps = (ps.map (fun p => p.memory)).sum := by
  simp [totalMem, foldl_add_memory]

theorem orZero_fin (q : ℚ) : orZero (JSNumber.fin q) = JSNumber.fin q := by
  simp only [orZero]
  split_ifs with h
  · rw [h]
  · rfl

theorem sum_cpu_nonneg (ps : List ProcessRecord) (h : ∀ p ∈ ps, 0 ≤ p.cpu) :
    0 ≤ (ps.map (fun p => p.cpu)).sum := by
  apply List.sum_nonneg
  intro x hx
  obtain ⟨p, hp, rfl⟩ := List.mem_map.mp hx
  exact h p hp

theorem cpuUsage_nil : (aggregate []).cpuUsage = JSNumber.fin 0 := by
  simp [aggregate, totalCpu, jsDiv, orZero, mathMin]

theorem cpuUsage_of_ne_nil (ps : List ProcessRecord) (h : ps ≠ []) :
    (aggregate ps).cpuUsage
      = JSNumber.fin (min 100 ((ps.map (fun p => p.cpu)).sum / (ps.length : ℚ))) := by
  have hlen : (ps.length : ℚ) ≠ 0 := by
    have : ps.length ≠ 0 := fun h0 => h (List.length_eq_zero.mp h0)
    exact_mod_cast this
  simp only [aggregate, jsDiv, if_neg hlen, orZero_fin, mathMin, totalCpu_eq_sum]

/-! ## Alert classifier -/

theorem pushAlerts_eq (acc : List Alert) (p : ProcessRecord) :
    pushAlerts acc p = acc ++ specEvents p := by
  unfold pushAlerts specEvents
  by_cases h1 : p.cpu > 80 <;> by_cases h2 : p.memory > 1500 <;>
    by_cases h3 : p.state = some ProcState.Zombie <;> simp [h1, h2, h3]

theorem foldl_pushAlerts (ps : List ProcessRecord) (acc : List Alert) :
    ps.foldl pushAlerts acc = acc ++ ps.flatMap specEvents := by
  induction ps generalizing acc with
  | nil => simp
  | cons p ps ih => simp [ih, pushAlerts_eq, List.flatMap_cons, List.append_assoc]

theorem specEvents_length_le (p : ProcessRecord) : (specEvents p).length ≤ 3 := by
  unfold specEvents
  by_cases h1 : p.cpu > 80 <;> by_cases h2 : p.memory > 1500 <;>
    by_cases h3 : p.state = some ProcState.Zombie <;> simp [h1, h2, h3]

theorem specEvents_ref (p : ProcessRecord) (e : Alert) (he : e ∈ specEvents p) :
    e.pid = p.pid ∧ e.name = p.name := by
  unfold specEvents at he
  simp only [List.mem_append] at he
  rcases he with (he | he) | he
  all_goals
    split_ifs at he
    · rw [List.mem_singleton.mp he]; exact ⟨rfl, rfl⟩
    · cases he

theorem constEnv_unitDraws (r : ℚ) (h0 : 0 ≤ r) (h1 : r < 1) : (constEnv r).UnitDraws :=
  fun _ => ⟨h0, h1⟩

/-! ## Evolution step -/

theorem evolveRecord_nonneg (env : Env) (k : ℕ) (p : ProcessRecord) :
    0 ≤ (evolveRecord env k p).1.cpu ∧ 0 ≤ (evolveRecord env k p).1.memory := by
  unfold evolveRecord
  split_ifs <;> exact ⟨le_max_left _ _, le_max_left _ _⟩

theorem evolve_nonneg (env : Env) (k : ℕ) (ps : List ProcessRecord) :
    ∀ p ∈ (evolve env k ps).1, 0 ≤ p.cpu ∧ 0 ≤ p.memory := by
  induction ps generalizing k with
  | nil => intro p hp; simp [evolve] at hp
  | cons q qs ih =>
    intro p hp
    simp only [evolve, List.mem_cons] at hp
    rcases hp with rfl | hp
    · exact evolveRecord_nonneg env k q
    · exact ih _ p hp

theorem toFixed1_nonneg (x : ℚ) (hx : 0 ≤ x) : 0 ≤ toFixed1 x := by
  unfold toFixed1
  have h : (0 : ℤ) ≤ ⌊x * 10 + 1 / 2⌋ := Int.floor_nonneg.mpr (by positivity)
  have h2 : (0 : ℚ) ≤ ((⌊x * 10 + 1 / 2⌋ : ℤ) : ℚ) := by exact_mod_cast h
  positivity

theorem generateFrom_nonneg (env : Env) (h : env.UnitDraws) (names : List String) (i k : ℕ) :
    ∀ p ∈ (generateFrom env names i k).1, 0 ≤ p.cpu ∧ 0 ≤ p.memory := by
  induction names generalizing i k with
  | nil => intro p hp; simp [generateFrom] at hp
  | cons n ns ih =>
    intro p hp
    simp only [generateFrom, List.mem_cons] at hp
    rcases hp with rfl | hp
    · constructor
      · exact toFixed1_nonneg _ (mul_nonneg (h k).1 (by norm_num))
      · exact toFixed1_nonneg _ (mul_nonneg (h (k + 1)).1 (by norm_num))
    · exact ih _ _ p hp

theorem statsEffect_processes (c : Component) (s : MonitorState) :
    (statsEffect c s).processes = s.processes := by
  cases c
  · rfl
  · simp only [statsEffect]; split_ifs <;> rfl

theorem statsEffect_cursor (c : Component) (s : MonitorState) :
    (statsEffect c s).cursor = s.cursor := by
  cases c
  · rfl
  · simp only [statsEffect]; split_ifs <;> rfl

theorem mount_processes (env : Env) (c : Component) :
    (mount env c).processes = (generateProcesses env 0).1 := by
  simp only [mount, statsEffect_processes, statsEffect_cursor]
  rfl

theorem step_tick_processes (env : Env) (c : Component) (s : MonitorState) :
    (step env c s Command.tick).processes = (evolve env s.cursor s.processes).1 := by
  simp only [step, statsEffect_processes, tickUpdate]

theorem step_kill_processes (env : Env) (c : Component) (s : MonitorState) (pid : ℕ) :
    (step env c s (Command.kill pid)).processes = killFilter pid s.processes := by
  simp only [step, statsEffect_processes, killProcess]

/-- A property of records that generation establishes, every tick re-establishes and
removal cannot break holds in every reachable state. -/
theorem run_forall (env : Env) (c : Component) (P : ProcessRecord → Prop)
    (hgen : ∀ p ∈ (generateProcesses env 0).1, P p)
    (htick : ∀ k ps, (∀ p ∈ ps, P p) → ∀ p ∈ (evolve env k ps).1, P p)
    (cmds : List Command) : ∀ p ∈ (run env c cmds).processes, P p := by
  have key : ∀ (cs : List Command) (s : MonitorState), (∀ p ∈ s.processes, P p) →
      ∀ p ∈ (cs.foldl (step env c) s).processes, P p := by
    intro cs
    induction cs with
    | nil => intro s hs; simpa using hs
    | cons cmd cs ih =>
      intro s hs
      rw [List.foldl_cons]
      apply ih
      cases cmd with
      | tick => rw [step_tick_processes]; exact htick _ _ hs
      | kill pid =>
        rw [step_kill_processes]
        intro p hp
        exact hs p (List.mem_of_mem_filter hp)
  apply key
  rw [mount_processes]
  exact hgen

/-! ## State changes -/

theorem jsIndex_tickStates (r : ℚ) (h0 : 0 ≤ r) (h1 : r < 1) :
    jsIndex tickStates ⌊r * 3⌋ = some ProcState.Running ∨
    jsIndex tickStates ⌊r * 3⌋ = some ProcState.Sleeping ∨
    jsIndex tickStates ⌊r * 3⌋ = some ProcState.Waiting := by
  have hlo : (0 : ℤ) ≤ ⌊r * 3⌋ := Int.floor_nonneg.mpr (by positivity)
  have hhi : ⌊r * 3⌋ < (3 : ℤ) := Int.floor_lt.mpr (by push_cast; linarith)
  generalize ⌊r * 3⌋ = n at hlo hhi
  interval_cases n <;> simp [jsIndex, tickStates]

theorem jsIndex_tickStates_ne_zombie (i : ℤ) :
    jsIndex tickStates i ≠ some ProcState.Zombie := by
  unfold jsIndex tickStates
  split_ifs
  · simp
  · generalize i.toNat = m
    match m with
    | 0 => simp
    | 1 => simp
    | 2 => simp
    | n + 3 => simp

theorem evolveRecord_state_of_le (env : Env) (k : ℕ) (p : ProcessRecord)
    (h : env.random (k + 2) ≤ 95 / 100) : (evolveRecord env k p).1.state = p.state := by
  unfold evolveRecord
  rw [if_neg (not_lt.mpr h)]

theorem evolveRecord_state_of_gt (env : Env) (k : ℕ) (p : ProcessRecord)
    (h : 95 / 100 < env.random (k + 2)) :
    (evolveRecord env k p).1.state = jsIndex tickStates ⌊env.random (k + 3) * 3⌋ := by
  unfold evolveRecord
  rw [if_pos h]

theorem evolveRecord_zombie_imp (env : Env) (k : ℕ) (p : ProcessRecord)
    (h : (evolveRecord env k p).1.state = some ProcState.Zombie) :
    p.state = some ProcState.Zombie := by
  by_cases hr : env.random (k + 2) ≤ 95 / 100
  · rw [← evolveRecord_state_of_le env k p hr]; exact h
  · rw [evolveRecord_state_of_gt env k p (not_le.mp hr)] at h
    exact absurd h (jsIndex_tickStates_ne_zombie _)

theorem zombieCount_evolve_le (env : Env) (k : ℕ) (ps : List ProcessRecord) :
    zombieCount (evolve env k ps).1 ≤ zombieCount ps := by
  induction ps generalizing k with
  | nil => simp [evolve, zombieCount]
  | cons q qs ih =>
    have ih2 := ih (evolveRecord env k q).2
    simp only [zombieCount, evolve, List.countP_cons] at ih2 ⊢
    by_cases hz : (evolveRecord env k q).1.state = some ProcState.Zombie
    · have := evolveRecord_zombie_imp env k q hz
      simp only [hz, this, decide_True, if_true]
      omega
    · simp only [hz, decide_False]
      split_ifs <;> simp at * <;> omega

/-! ## Command handler and query layer -/

theorem killFilter_eq_self (pid : ℕ) (ps : List ProcessRecord)
    (h : ∀ p ∈ ps, p.pid ≠ pid) : killFilter pid ps = ps := by
  unfold killFilter
  rw [List.filter_eq_self]
  intro p hp
  simpa using h p hp

theorem killFilter_split (pid : ℕ) (ps : List ProcessRecord)
    (hnd : (ps.map (fun p => p.pid)).Nodup) (h : ∃ p ∈ ps, p.pid = pid) :
    ∃ (l1 : List ProcessRecord) (p : ProcessRecord) (l2 : List ProcessRecord),
      ps = l1 ++ p :: l2 ∧ p.pid = pid ∧ killFilter pid ps = l1 ++ l2 := by
  obtain ⟨p, hp, hpid⟩ := h
  obtain ⟨l1, l2, rfl⟩ := List.append_of_mem hp
  refine ⟨l1, p, l2, rfl, hpid, ?_⟩
  rw [List.map_append, List.map_cons, List.nodup_append] at hnd
  obtain ⟨_, h2, hdis⟩ := hnd
  have hl1 : ∀ q ∈ l1, q.pid ≠ pid := by
    intro q hq hqp
    exact hdis (List.mem_map_of_mem (fun p => p.pid) hq)
      (by rw [hqp, ← hpid]; exact List.mem_cons_self _ _)
  have hl2 : ∀ q ∈ l2, q.pid ≠ pid := by
    intro q hq hqp
    rw [List.nodup_cons] at h2
    exact h2.1 (by rw [hpid, ← hqp]; exact List.mem_map_of_mem (fun p => p.pid) hq)
  have e1 := killFilter_eq_self pid l1 hl1
  have e2 := killFilter_eq_self pid l2 hl2
  unfold killFilter at e1 e2 ⊢
  rw [List.filter_append, List.filter_cons, e1, e2]
  simp [hpid]

theorem killFilter_pid_ne (pid : ℕ) (ps : List ProcessRecord) :
    ∀ q ∈ killFilter pid ps, q.pid ≠ pid := by
  intro q hq
  have := (List.mem_filter.mp hq).2
  simpa using this

/-! ## Derived state of the two components -/

theorem state_draw_seven_eighths :
    jsIndex states ⌊(7 / 8 : ℚ) * (states.length : ℚ)⌋ = some ProcState.Zombie := by
  have hlen : ((states.length : ℕ) : ℚ) = 4 := by norm_num [states]
  have hf : ⌊(7 / 8 : ℚ) * 4⌋ = 3 := by norm_num [Int.floor_eq_iff]
  rw [hlen, hf]
  rfl

/-- In `App` the stored statistics and alerts are those of the current population in
every reachable state, the empty population included. -/
theorem app_derived_state (env : Env) (cmds : List Command) :
    (run env Component.App cmds).systemStats
      = aggregate (run env Component.App cmds).processes ∧
    (run env Component.App cmds).alerts
      = newAlerts (run env Component.App cmds).processes := by
  have key : ∀ (cs : List Command) (s : MonitorState),
      (s.systemStats = aggregate s.processes ∧ s.alerts = newAlerts s.processes) →
      ((cs.foldl (step env Component.App) s).systemStats
          = aggregate (cs.foldl (step env Component.App) s).processes ∧
        (cs.foldl (step env Component.App) s).alerts
          = newAlerts (cs.foldl (step env Component.App) s).processes) := by
    intro cs
    induction cs with
    | nil => intro s hs; simpa using hs
    | cons cmd cs ih =>
      intro s _
      rw [List.foldl_cons]
      apply ih
      cases cmd <;> exact ⟨rfl, rfl⟩
  exact key cmds _ ⟨rfl, rfl⟩

/-- In `ProcessMonitor` the stored statistics and alerts are those of the current
population in every reachable state whose population is not empty. -/
theorem processMonitor_derived_state (env : Env) (cmds : List Command)
    (hne : (run env Component.ProcessMonitor cmds).processes ≠ []) :
    (run env Component.ProcessMonitor cmds).systemStats
      = aggregate (run env Component.ProcessMonitor cmds).processes ∧
    (run env Component.ProcessMonitor cmds).alerts
      = newAlerts (run env Component.ProcessMonitor cmds).processes := by
  have eff : ∀ s : MonitorState, s.processes ≠ [] →
      (statsEffect Component.ProcessMonitor s).systemStats
          = aggregate (statsEffect Component.ProcessMonitor s).processes ∧
      (statsEffect Component.ProcessMonitor s).alerts
          = newAlerts (statsEffect Component.ProcessMonitor s).processes := by
    intro s hs
    have hlen : s.processes.length ≠ 0 := fun h0 => hs (List.length_eq_zero.mp h0)
    simp only [statsEffect, if_neg hlen]
    exact ⟨rfl, rfl⟩
  induction cmds using List.reverseRecOn with
  | nil =>
    have hm : (mount env Component.ProcessMonitor).processes ≠ [] := hne
    rw [mount_processes] at hm
    unfold run mount
    simp only [List.foldl_nil]
    apply eff
    exact hm
  | append_singleton cs cmd _ =>
    unfold run at hne ⊢
    rw [List.foldl_append, List.foldl_cons, List.foldl_nil] at hne ⊢
    cases cmd with
    | tick =>
      simp only [step] at hne ⊢
      rw [statsEffect_processes] at hne
      exact eff _ hne
    | kill pid =>
      simp only [step] at hne ⊢
      rw [statsEffect_processes] at hne
      exact eff _ hne
/-! ## The claims -/

/-- Claim C1 (fails in `ProcessMonitor`): derived state should be a function of the current
population in every reachable state, the empty one included.  Evaluation at the failing
input: with every draw equal to `7/8`, after mounting `ProcessMonitor` and killing the
pids `1000` to `1014` the population is empty, yet the stored statistics and alerts are
still those of the last killed record (pid `1014`) and differ from the aggregate and the
alert list of the empty population; `App` stores the latter at the same input. -/
theorem processMonitor_stale_after_last_kill :
    (run (constEnv (7 / 8)) Component.ProcessMonitor killAll).processes = [] ∧
    (run (constEnv (7 / 8)) Component.ProcessMonitor killAll).systemStats
      = { cpuUsage := JSNumber.fin (175 / 2), memoryUsage := 1792, totalMemory := 16384,
          activeProcesses := 0 } ∧
    (run (constEnv (7 / 8)) Component.ProcessMonitor killAll).systemStats
      ≠ aggregate (run (constEnv (7 / 8)) Component.ProcessMonitor killAll).processes ∧
    (run (constEnv (7 / 8)) Component.ProcessMonitor killAll).alerts
      = [{ type := AlertType.cpu, pid := 1014, name := "Spotify.exe",
           value := some (175 / 2) },
         { type := AlertType.memory, pid := 1014, name := "Spotify.exe",
           value := some 1792 },
         { type := AlertType.zombie, pid := 1014, name := "Spotify.exe", value := none }] ∧
    (run (constEnv (7 / 8)) Component.ProcessMonitor killAll).alerts
      ≠ newAlerts (run (constEnv (7 / 8)) Component.ProcessMonitor killAll).processes ∧
    (run (constEnv (7 / 8)) Component.App killAll).processes = [] ∧
    (run (constEnv (7 / 8)) Component.App killAll).systemStats = aggregate [] ∧
    (run (constEnv (7 / 8)) Component.App killAll).alerts = newAlerts [] := by
  have hzr : ProcState.Zombie ≠ ProcState.Running := by decide
  have hp : (run (constEnv (7 / 8)) Component.ProcessMonitor killAll).processes = [] := by
    simp [run, killAll, mount, step, statsEffect, killProcess, killFilter,
      generateProcesses, generateFrom, generateRecord, processNames, initialState,
      recompute, constEnv, List.range, List.range.loop]
  have hs : (run (constEnv (7 / 8)) Component.ProcessMonitor killAll).systemStats
      = { cpuUsage := JSNumber.fin (175 / 2), memoryUsage := 1792, totalMemory := 16384,
          activeProcesses := 0 } := by
    simp [run, killAll, mount, step, statsEffect, killProcess, killFilter,
      generateProcesses, generateFrom, generateRecord, processNames, initialState,
      recompute, constEnv, List.range, List.range.loop]
    norm_num [aggregate, totalCpu, totalMem, running, toFixed1, jsDiv, orZero, mathMin,
      state_draw_seven_eighths, hzr]
  have ha : (run (constEnv (7 / 8)) Component.ProcessMonitor killAll).alerts
      = [{ type := AlertType.cpu, pid := 1014, name := "Spotify.exe",
           value := some (175 / 2) },
         { type := AlertType.memory, pid := 1014, name := "Spotify.exe",
           value := some 1792 },
         { type := AlertType.zombie, pid := 1014, name := "Spotify.exe", value := none }] := by
    simp [run, killAll, mount, step, statsEffect, killProcess, killFilter,
      generateProcesses, generateFrom, generateRecord, processNames, initialState,
      recompute, constEnv, List.range, List.range.loop]
    norm_num [newAlerts, pushAlerts, toFixed1, state_draw_seven_eighths]
  have happ := app_derived_state (constEnv (7 / 8)) killAll
  have hq : (run (constEnv (7 / 8)) Component.App killAll).processes = [] := by
    simp [run, killAll, mount, step, statsEffect, killProcess, killFilter,
      generateProcesses, generateFrom, generateRecord, processNames, initialState,
      recompute, constEnv, List.range, List.range.loop]
  refine ⟨hp, hs, ?_, ha, ?_, hq, ?_, ?_⟩
  · rw [hs, hp]
    intro h
    have hm := congrArg SystemStats.memoryUsage h
    norm_num [aggregate, totalMem] at hm
  · rw [ha, hp]
    simp [newAlerts]
  · rw [happ.1, hq]
  · rw [happ.2, hq]

/-- Claim C2: for the empty population the aggregator yields `cpuUsage = 0`,
`memoryUsage = 0` and `activeProcesses = 0`; the quotient of the cpu sum by the count
zero is `NaN`, and the guard `|| 0` turns it into `0`.  On the empty population of the
first render the effect of either component leaves these values in `systemStats`. -/
theorem aggregate_nil :
    jsDiv (totalCpu []) (([] : List ProcessRecord).length : ℚ) = JSNumber.nan ∧
    (aggregate []).cpuUsage = JSNumber.fin 0 ∧
    (aggregate []).memoryUsage = 0 ∧
    (aggregate []).activeProcesses = 0 ∧
    (∀ c : Component, (statsEffect c initialState).systemStats
      = { cpuUsage := JSNumber.fin 0, memoryUsage := 0, totalMemory := 16384,
          activeProcesses := 0 }) := by
  have hmem : (aggregate []).memoryUsage = 0 := by simp [aggregate, totalMem]
  have hrun : (aggregate []).activeProcesses = 0 := by simp [aggregate, running]
  refine ⟨?_, cpuUsage_nil, hmem, hrun, ?_⟩
  · simp [totalCpu, jsDiv]
  · intro c
    cases c
    · show aggregate [] = _
      have h1 := cpuUsage_nil
      have h4 : (aggregate []).totalMemory = 16384 := rfl
      cases hagg : aggregate [] with
      | mk a b t n =>
        rw [hagg] at h1 hmem hrun h4
        simp only at h1 hmem hrun h4
        rw [h1, hmem, hrun, h4]
    · rfl

/-- Claim C3: for every population whose records have `cpu ≥ 0` (the empty one and
populations with cpu values above 100 included), the aggregated `cpuUsage` is a finite
number in the closed interval `[0, 100]`. -/
theorem cpuUsage_mem_Icc (ps : List ProcessRecord) (h : ∀ p ∈ ps, 0 ≤ p.cpu) :
    ∃ q : ℚ, (aggregate ps).cpuUsage = JSNumber.fin q ∧ 0 ≤ q ∧ q ≤ 100 := by
  by_cases hne : ps = []
  · subst hne
    exact ⟨0, cpuUsage_nil, le_refl 0, by norm_num⟩
  · refine ⟨_, cpuUsage_of_ne_nil ps hne, ?_, min_le_left _ _⟩
    apply le_min (by norm_num)
    exact div_nonneg (sum_cpu_nonneg ps h) (Nat.cast_nonneg _)

/-- Witness of C3 at a population whose only record has `cpu = 250`. -/
theorem cpuUsage_mem_Icc_witness :
    (∀ p ∈ [hotRecord], 0 ≤ p.cpu) ∧
    ∃ q : ℚ, (aggregate [hotRecord]).cpuUsage = JSNumber.fin q ∧ 0 ≤ q ∧ q ≤ 100 :=
  ⟨by simp [hotRecord], cpuUsage_mem_Icc [hotRecord] (by simp [hotRecord])⟩

/-- Claim C5: the alert classifier returns, for every population, exactly the
concatenation in population order of the events of each record (`HighCpu` with the cpu
value iff `cpu > 80`, then `HighMemory` with the memory value iff `memory > 1500`, then
`ZombieProcess` without value iff the state is `Zombie`); each event carries the pid and
name of its record, a record emits at most three events, and the list is complete: its
length is the sum of the event counts of the records, not capped at 3.  A cpu value of
85 triggers with value 85, a cpu value of exactly 80 does not. -/
theorem newAlerts_eq_flatMap (ps : List ProcessRecord) :
    newAlerts ps = ps.flatMap specEvents ∧
    (∀ p : ProcessRecord,
      newAlerts [p] = specEvents p ∧
      (newAlerts [p]).length ≤ 3 ∧
      (∀ e ∈ newAlerts [p], e.pid = p.pid ∧ e.name = p.name) ∧
      (({ type := AlertType.cpu, pid := p.pid, name := p.name, value := some p.cpu } : Alert)
          ∈ newAlerts [p] ↔ p.cpu > 80) ∧
      (({ type := AlertType.memory, pid := p.pid, name := p.name,
          value := some p.memory } : Alert) ∈ newAlerts [p] ↔ p.memory > 1500) ∧
      (({ type := AlertType.zombie, pid := p.pid, name := p.name, value := none } : Alert)
          ∈ newAlerts [p] ↔ p.state = some ProcState.Zombie)) ∧
    (newAlerts ps).length = ((ps.map (fun p => (specEvents p).length)).sum) ∧
    newAlerts [cpuRecord 85]
      = [{ type := AlertType.cpu, pid := 1001, name := "firefox.exe", value := some 85 }] ∧
    newAlerts [cpuRecord 80] = [] ∧
    (newAlerts [hotRecord, cpuRecord 85]).length = 4 ∧
    (shownAlerts (newAlerts [hotRecord, cpuRecord 85])).length = 3 := by
  have hrz : ProcState.Running ≠ ProcState.Zombie := by decide
  have hall : ∀ qs : List ProcessRecord, newAlerts qs = qs.flatMap specEvents := by
    intro qs
    simp [newAlerts, foldl_pushAlerts]
  have hone : ∀ p : ProcessRecord, newAlerts [p] = specEvents p := by
    intro p
    simp [hall]
  refine ⟨hall ps, ?_, ?_, ?_, ?_, ?_, ?_⟩
  · intro p
    rw [hone p]
    refine ⟨rfl, specEvents_length_le p, specEvents_ref p, ?_, ?_, ?_⟩
    all_goals
      unfold specEvents
      by_cases h1 : p.cpu > 80 <;> by_cases h2 : p.memory > 1500 <;>
        by_cases h3 : p.state = some ProcState.Zombie <;> simp [h1, h2, h3]
  · rw [hall ps, List.length_flatMap]; rfl
  · rw [hone]; norm_num [specEvents, cpuRecord, hrz]
  · rw [hone]; norm_num [specEvents, cpuRecord, hrz]
  · rw [hall]; norm_num [specEvents, cpuRecord, hotRecord, hrz]
  · rw [hall]; norm_num [shownAlerts, specEvents, cpuRecord, hotRecord, hrz]

/-- Claim C6: with every random draw in `[0, 1)`, in every state reached from the
generated population by any sequence of commands (in particular by any number of ticks)
every record has `cpu ≥ 0` and `memory ≥ 0`; and a single evolution step yields
non-negative `cpu` and `memory` for every record, whatever the population was before. -/
theorem metrics_nonneg (env : Env) (h : env.UnitDraws) (c : Component)
    (cmds : List Command) :
    (∀ p ∈ (run env c cmds).processes, 0 ≤ p.cpu ∧ 0 ≤ p.memory) ∧
    (∀ n : ℕ, ∀ p ∈ (run env c (List.replicate n Command.tick)).processes,
      0 ≤ p.cpu ∧ 0 ≤ p.memory) ∧
    (∀ (k : ℕ) (ps : List ProcessRecord), ∀ p ∈ (evolve env k ps).1,
      0 ≤ p.cpu ∧ 0 ≤ p.memory) := by
  have hrun : ∀ cs : List Command, ∀ p ∈ (run env c cs).processes,
      0 ≤ p.cpu ∧ 0 ≤ p.memory := by
    intro cs
    apply run_forall
    · exact generateFrom_nonneg env h _ _ _
    · intro k ps _
      exact evolve_nonneg env k ps
  exact ⟨hrun cmds, fun n => hrun _, evolve_nonneg env⟩

/-- Witness of C6: every draw equal to `1/2`, component `App`, a tick, a kill, a tick. -/
theorem metrics_nonneg_witness :
    (constEnv (1 / 2)).UnitDraws ∧
    (∀ p ∈ (run (constEnv (1 / 2)) Component.App
        [Command.tick, Command.kill 1003, Command.tick]).processes,
      0 ≤ p.cpu ∧ 0 ≤ p.memory) ∧
    (∀ n : ℕ, ∀ p ∈ (run (constEnv (1 / 2)) Component.App
        (List.replicate n Command.tick)).processes, 0 ≤ p.cpu ∧ 0 ≤ p.memory) ∧
    (∀ (k : ℕ) (ps : List ProcessRecord), ∀ p ∈ (evolve (constEnv (1 / 2)) k ps).1,
      0 ≤ p.cpu ∧ 0 ≤ p.memory) :=
  ⟨constEnv_unitDraws _ (by norm_num) (by norm_num),
   metrics_nonneg (constEnv (1 / 2)) (constEnv_unitDraws _ (by norm_num) (by norm_num))
     Component.App [Command.tick, Command.kill 1003, Command.tick]⟩

/-- Counterexample to C7 as stated: with every draw equal to `24/25` (in `[0, 1)` and
above `0.95`), a record whose state is `Zombie` has state `Waiting` after one step. -/
theorem zombie_exits_on_redraw :
    (constEnv (24 / 25)).UnitDraws ∧
    hotRecord.state = some ProcState.Zombie ∧
    (evolveRecord (constEnv (24 / 25)) 0 hotRecord).1.state = some ProcState.Waiting ∧
    (evolveRecord (constEnv (24 / 25)) 0 hotRecord).1.state ≠ some ProcState.Zombie := by
  have hst : (evolveRecord (constEnv (24 / 25)) 0 hotRecord).1.state
      = some ProcState.Waiting := by
    rw [evolveRecord_state_of_gt _ _ _ (by norm_num [constEnv])]
    have hf : ⌊(24 / 25 : ℚ) * 3⌋ = 2 := by norm_num [Int.floor_eq_iff]
    simp only [constEnv, hf]
    rfl
  refine ⟨constEnv_unitDraws _ (by norm_num) (by norm_num), rfl, hst, ?_⟩
  rw [hst]
  decide

/-- Claim C7, amended: for every record whose state is `Zombie` before an evolution step
and all draws in `[0, 1)`, the state is still `Zombie` after the step whenever the
state-change draw is not greater than `0.95`; when that draw is greater than `0.95` the
state after the step is one of `Running`, `Sleeping`, `Waiting`. -/
theorem zombie_kept_unless_redrawn (env : Env) (h : env.UnitDraws) (k : ℕ)
    (p : ProcessRecord) (hz : p.state = some ProcState.Zombie) :
    (env.random (k + 2) ≤ 95 / 100 →
      (evolveRecord env k p).1.state = some ProcState.Zombie) ∧
    (95 / 100 < env.random (k + 2) →
      (evolveRecord env k p).1.state = some ProcState.Running ∨
      (evolveRecord env k p).1.state = some ProcState.Sleeping ∨
      (evolveRecord env k p).1.state = some ProcState.Waiting) := by
  constructor
  · intro hr
    rw [evolveRecord_state_of_le env k p hr, hz]
  · intro hr
    rw [evolveRecord_state_of_gt env k p hr]
    exact jsIndex_tickStates _ (h (k + 3)).1 (h (k + 3)).2

/-- Witness of the amended C7: every draw equal to `1/2`, the zombie sample record. -/
theorem zombie_kept_unless_redrawn_witness :
    (constEnv (1 / 2)).UnitDraws ∧
    hotRecord.state = some ProcState.Zombie ∧
    ((constEnv (1 / 2)).random (0 + 2) ≤ 95 / 100 →
      (evolveRecord (constEnv (1 / 2)) 0 hotRecord).1.state = some ProcState.Zombie) ∧
    (95 / 100 < (constEnv (1 / 2)).random (0 + 2) →
      (evolveRecord (constEnv (1 / 2)) 0 hotRecord).1.state = some ProcState.Running ∨
      (evolveRecord (constEnv (1 / 2)) 0 hotRecord).1.state = some ProcState.Sleeping ∨
      (evolveRecord (constEnv (1 / 2)) 0 hotRecord).1.state = some ProcState.Waiting) :=
  ⟨constEnv_unitDraws _ (by norm_num) (by norm_num), rfl,
   zombie_kept_unless_redrawn (constEnv (1 / 2))
     (constEnv_unitDraws _ (by norm_num) (by norm_num)) 0 hotRecord rfl⟩

/-- Claim C8: the evolution step never enters `Zombie`.  For every record whose state
is one of the enumerated states other than `Zombie` and all draws in `[0, 1)`, the state
after the step is one of `Running`, `Sleeping`, `Waiting`, and it is unchanged whenever
the state-change draw is not greater than `0.95`; and the number of `Zombie` records of
the population does not increase across a tick, in either component. -/
theorem tick_never_enters_zombie (env : Env) (h : env.UnitDraws) (k : ℕ)
    (p : ProcessRecord) (s : ProcState) (hs : p.state = some s)
    (hne : s ≠ ProcState.Zombie) :
    ((evolveRecord env k p).1.state = some ProcState.Running ∨
      (evolveRecord env k p).1.state = some ProcState.Sleeping ∨
      (evolveRecord env k p).1.state = some ProcState.Waiting) ∧
    (env.random (k + 2) ≤ 95 / 100 → (evolveRecord env k p).1.state = p.state) ∧
    (∀ (j : ℕ) (ps : List ProcessRecord),
      zombieCount (evolve env j ps).1 ≤ zombieCount ps) ∧
    (∀ (c : Component) (st : MonitorState),
      zombieCount (step env c st Command.tick).processes ≤ zombieCount st.processes) := by
  refine ⟨?_, evolveRecord_state_of_le env k p, zombieCount_evolve_le env, ?_⟩
  · by_cases hr : env.random (k + 2) ≤ 95 / 100
    · rw [evolveRecord_state_of_le env k p hr, hs]
      cases s
      · exact Or.inl rfl
      · exact Or.inr (Or.inl rfl)
      · exact Or.inr (Or.inr rfl)
      · exact absurd rfl hne
    · rw [evolveRecord_state_of_gt env k p (not_le.mp hr)]
      exact jsIndex_tickStates _ (h (k + 3)).1 (h (k + 3)).2
  · intro c st
    rw [step_tick_processes]
    exact zombieCount_evolve_le env _ _

/-- Witness of C8: every draw equal to `24/25` (a state change is drawn), the running
sample record. -/
theorem tick_never_enters_zombie_witness :
    (constEnv (24 / 25)).UnitDraws ∧
    (cpuRecord 85).state = some ProcState.Running ∧
    ProcState.Running ≠ ProcState.Zombie ∧
    ((evolveRecord (constEnv (24 / 25)) 0 (cpuRecord 85)).1.state = some ProcState.Running ∨
      (evolveRecord (constEnv (24 / 25)) 0 (cpuRecord 85)).1.state
        = some ProcState.Sleeping ∨
      (evolveRecord (constEnv (24 / 25)) 0 (cpuRecord 85)).1.state
        = some ProcState.Waiting) ∧
    ((constEnv (24 / 25)).random (0 + 2) ≤ 95 / 100 →
      (evolveRecord (constEnv (24 / 25)) 0 (cpuRecord 85)).1.state
        = (cpuRecord 85).state) ∧
    (∀ (j : ℕ) (ps : List ProcessRecord),
      zombieCount (evolve (constEnv (24 / 25)) j ps).1 ≤ zombieCount ps) ∧
    (∀ (c : Component) (st : MonitorState),
      zombieCount (step (constEnv (24 / 25)) c st Command.tick).processes
        ≤ zombieCount st.processes) :=
  ⟨constEnv_unitDraws _ (by norm_num) (by norm_num), rfl, by decide,
   tick_never_enters_zombie (constEnv (24 / 25))
     (constEnv_unitDraws _ (by norm_num) (by norm_num)) 0 (cpuRecord 85)
     ProcState.Running rfl (by decide)⟩

/-- Claim C9: for every population with unique pids and every pid, if a record with
that pid is present then `killProcess` removes exactly that record: the population
splits as `l1 ++ p :: l2` with `p.pid = pid`, the result is `l1 ++ l2` (all other records
unchanged and in their original order), the size decreases by exactly 1 and no record of
the result has that pid; if no record has that pid the population is unchanged. -/
theorem killProcess_spec (s : MonitorState) (pid : ℕ)
    (hnd : (s.processes.map (fun p => p.pid)).Nodup) :
    ((∃ p ∈ s.processes, p.pid = pid) →
      (∃ (l1 : List ProcessRecord) (p : ProcessRecord) (l2 : List ProcessRecord),
        s.processes = l1 ++ p :: l2 ∧ p.pid = pid ∧
        (killProcess pid s).processes = l1 ++ l2) ∧
      (killProcess pid s).processes.length + 1 = s.processes.length ∧
      (∀ q ∈ (killProcess pid s).processes, q.pid ≠ pid) ∧
      (∀ q ∈ s.processes, q.pid ≠ pid → q ∈ (killProcess pid s).processes) ∧
      (killProcess pid s).processes.Sublist s.processes) ∧
    ((∀ p ∈ s.processes, p.pid ≠ pid) →
      (killProcess pid s).processes = s.processes) := by
  constructor
  · intro hex
    obtain ⟨l1, p, l2, hsplit, hpid, hres⟩ := killFilter_split pid s.processes hnd hex
    refine ⟨⟨l1, p, l2, hsplit, hpid, hres⟩, ?_, killFilter_pid_ne pid s.processes, ?_,
      List.filter_sublist _⟩
    · show (killFilter pid s.processes).length + 1 = s.processes.length
      rw [hres, hsplit]
      simp only [List.length_append, List.length_cons]
      omega
    · intro q hq hne
      show q ∈ killFilter pid s.processes
      exact List.mem_filter.mpr ⟨hq, by simpa using hne⟩
  · intro hno
    exact killFilter_eq_self pid s.processes hno

/-- Witness of C9: the state holding the two sample records (pids 1000 and 1001) and the
pid 1000. -/
theorem killProcess_spec_witness :
    (sampleState.processes.map (fun p => p.pid)).Nodup ∧
    (∃ p ∈ sampleState.processes, p.pid = 1000) ∧
    (killProcess 1000 sampleState).processes.length + 1 = sampleState.processes.length ∧
    (∀ q ∈ (killProcess 1000 sampleState).processes, q.pid ≠ 1000) :=
  have hnd : (sampleState.processes.map (fun p => p.pid)).Nodup := by
    simp [sampleState, hotRecord, cpuRecord]
  have hex : ∃ p ∈ sampleState.processes, p.pid = 1000 :=
    ⟨hotRecord, by simp [sampleState], rfl⟩
  ⟨hnd, hex, ((killProcess_spec sampleState 1000 hnd).1 hex).2.1,
    ((killProcess_spec sampleState 1000 hnd).1 hex).2.2.1⟩

/-- Claim C10: for every population, filter text and sort key, the filtered result of
the query layer is a sub-sequence of the population, and the final sorted result is a
permutation of the filtered result: no record is gained, lost or duplicated. -/
theorem filteredProcesses_sublist_perm (env : Env) (searchTerm sortBy : String)
    (ps : List ProcessRecord) :
    (filterStep env searchTerm ps).Sublist ps ∧
    (∀ p ∈ filterStep env searchTerm ps, p ∈ ps) ∧
    (filteredProcesses env searchTerm sortBy ps).Perm (filterStep env searchTerm ps) ∧
    (filteredProcesses env searchTerm sortBy ps).length
      = (filterStep env searchTerm ps).length ∧
    (∀ p : ProcessRecord, (filteredProcesses env searchTerm sortBy ps).count p
      = (filterStep env searchTerm ps).count p) := by
  have hperm : (filteredProcesses env searchTerm sortBy ps).Perm
      (filterStep env searchTerm ps) := List.perm_insertionSort _ _
  refine ⟨List.filter_sublist _, ?_, hperm, hperm.length_eq, ?_⟩
  · intro p hp
    exact List.mem_of_mem_filter hp
  · intro p
    exact hperm.count_eq p

/-! ## Filter of the query layer -/

theorem includesChars_iff (s t : List Char) : includesChars s t = true ↔ t <:+: s := by
  induction s with
  | nil => simp [includesChars, List.infix_nil]
  | cons c cs ih =>
    simp only [includesChars, Bool.or_eq_true, ih, List.infix_cons_iff,
      List.isPrefixOf_iff_prefix]

theorem includes_iff (s t : String) : includes s t = true ↔ t.data <:+: s.data :=
  includesChars_iff _ _

theorem includes_empty (s : String) : includes s "" = true :=
  (includes_iff s "").mpr List.nil_infix

theorem filterStep_empty (env : Env) (ps : List ProcessRecord) :
    filterStep env "" ps = ps := by
  unfold filterStep
  rw [List.filter_eq_self]
  intro p _
  simp [matchesSearch, includes_empty]

theorem generateProcesses_keys (env : Env) (k : ℕ) :
    (generateProcesses env k).1.map (fun p => (p.name, p.pid))
      = [("chrome.exe", 1000), ("firefox.exe", 1001), ("code.exe", 1002),
         ("node.exe", 1003), ("python.exe", 1004), ("docker.exe", 1005),
         ("postgres.exe", 1006), ("nginx.exe", 1007), ("java.exe", 1008),
         ("explorer.exe", 1009), ("system", 1010), ("svchost.exe", 1011),
         ("Teams.exe", 1012), ("Slack.exe", 1013), ("Spotify.exe", 1014)] := by
  simp [generateProcesses, generateFrom, generateRecord, processNames]

/-- The filter test only reads the name and the pid of a record. -/
theorem filterStep_map_keys (env : Env) (searchTerm : String) (ps : List ProcessRecord) :
    (filterStep env searchTerm ps).map (fun p => (p.name, p.pid))
      = (ps.map (fun p => (p.name, p.pid))).filter (fun x =>
          includes (env.toLowerCase x.1) (env.toLowerCase searchTerm) ||
            includes (toString x.2) searchTerm) := by
  unfold filterStep
  rw [List.filter_map]
  rfl

theorem constEnv_lower (r : ℚ) (s : String) : (constEnv r).toLowerCase s = asciiLower s :=
  String.map_eq _ _

/-- Claim C11: for every population and filter text, a record is kept by the filter of
the query layer iff its lower-cased name contains the lower-cased filter text or the
decimal string of its pid contains the filter text, and the empty filter text keeps every
record.  On the generated 15-name population, with a `toLowerCase` that lower-cases the
ASCII strings involved, the filter `exe` keeps every record but `system` (so it keeps
`chrome.exe`), and the filter `1005` keeps exactly the record whose pid is 1005. -/
theorem filterStep_spec (env : Env) (searchTerm : String) (ps : List ProcessRecord)
    (k : ℕ) :
    (∀ p : ProcessRecord, p ∈ filterStep env searchTerm ps ↔
      p ∈ ps ∧ ((env.toLowerCase searchTerm).data <:+: (env.toLowerCase p.name).data ∨
        searchTerm.data <:+: (toString p.pid).data)) ∧
    filterStep env "" ps = ps ∧
    ((∀ s ∈ "exe" :: "1005" :: processNames, env.toLowerCase s = asciiLower s) →
      (filterStep env "exe" (generateProcesses env k).1).map (fun p => p.name)
        = ["chrome.exe", "firefox.exe", "code.exe", "node.exe", "python.exe",
           "docker.exe", "postgres.exe", "nginx.exe", "java.exe", "explorer.exe",
           "svchost.exe", "Teams.exe", "Slack.exe", "Spotify.exe"] ∧
      (filterStep env "1005" (generateProcesses env k).1).map (fun p => p.pid)
        = [1005]) := by
  refine ⟨?_, filterStep_empty env ps, ?_⟩
  · intro p
    simp only [filterStep, List.mem_filter, matchesSearch, Bool.or_eq_true, includes_iff]
  · intro hlow
    constructor
    · have h := congrArg (List.map Prod.fst)
        (filterStep_map_keys env "exe" (generateProcesses env k).1)
      rw [List.map_map] at h
      rw [show (fun p : ProcessRecord => p.name)
          = Prod.fst ∘ (fun p => (p.name, p.pid)) from rfl, h, generateProcesses_keys]
      simp only [List.filter, hlow, List.mem_cons, true_or, or_true, processNames]
      decide
    · have h := congrArg (List.map Prod.snd)
        (filterStep_map_keys env "1005" (generateProcesses env k).1)
      rw [List.map_map] at h
      rw [show (fun p : ProcessRecord => p.pid)
          = Prod.snd ∘ (fun p => (p.name, p.pid)) from rfl, h, generateProcesses_keys]
      simp only [List.filter, hlow, List.mem_cons, true_or, or_true, processNames]
      decide

/-- Witness of C11: the environment `constEnv (1/2)`, whose `toLowerCase` is the ASCII
lower-casing, and the population it generates. -/
theorem filterStep_spec_witness :
    (∀ s ∈ "exe" :: "1005" :: processNames,
      (constEnv (1 / 2)).toLowerCase s = asciiLower s) ∧
    (filterStep (constEnv (1 / 2)) "exe"
        (generateProcesses (constEnv (1 / 2)) 0).1).map (fun p => p.name)
      = ["chrome.exe", "firefox.exe", "code.exe", "node.exe", "python.exe",
         "docker.exe", "postgres.exe", "nginx.exe", "java.exe", "explorer.exe",
         "svchost.exe", "Teams.exe", "Slack.exe", "Spotify.exe"] ∧
    (filterStep (constEnv (1 / 2)) "1005"
        (generateProcesses (constEnv (1 / 2)) 0).1).map (fun p => p.pid) = [1005] :=
  ⟨fun s _ => constEnv_lower _ s,
   (filterStep_spec (constEnv (1 / 2)) "" [] 0).2.2 (fun s _ => constEnv_lower _ s)⟩

/-! ## Sort of the query layer -/

theorem jsSort_sorted {α : Type} (cmp : α → α → ℚ)
    (htot : ∀ a b, cmp a b ≤ 0 ∨ cmp b a ≤ 0)
    (htrans : ∀ a b c, cmp a b ≤ 0 → cmp b c ≤ 0 → cmp a c ≤ 0) (xs : List α) :
    (jsSort cmp xs).Sorted (fun a b => cmp a b ≤ 0) := by
  haveI : IsTotal α (fun a b => cmp a b ≤ 0) := ⟨htot⟩
  haveI : IsTrans α (fun a b => cmp a b ≤ 0) := ⟨htrans⟩
  exact List.sorted_insertionSort _ xs

theorem jsSort_pair {α : Type} (cmp : α → α → ℚ) (xs : List α) (a b : α)
    (hab : cmp a b ≤ 0) (h : [a, b].Sublist xs) : [a, b].Sublist (jsSort cmp xs) :=
  List.pair_sublist_insertionSort hab h

theorem jsSort_filter_eq {α : Type} (cmp : α → α → ℚ) (q : α → Bool)
    (hq : ∀ a b, q a = true → q b = true → cmp a b ≤ 0) (xs : List α) :
    (jsSort cmp xs).filter q = xs.filter q := by
  have hpw : (xs.filter q).Pairwise (fun a b => cmp a b ≤ 0) := by
    apply List.pairwise_of_forall_mem_list
    intro a ha b hb
    exact hq a b (List.mem_filter.mp ha).2 (List.mem_filter.mp hb).2
  have hsub : (xs.filter q).Sublist (jsSort cmp xs) :=
    List.sublist_insertionSort hpw (List.filter_sublist xs)
  have hsub2 : (xs.filter q).Sublist ((jsSort cmp xs).filter q) := by
    have := hsub.filter q
    rwa [List.filter_filter, show (fun a => q a && q a) = q from by funext a; simp] at this
  have hperm : ((jsSort cmp xs).filter q).Perm (xs.filter q) :=
    (List.perm_insertionSort _ xs).filter q
  exact (hsub2.eq_of_length hperm.length_eq.symm).symm

theorem constEnv_compare_le (r : ℚ) (a b : String) :
    (constEnv r).localeCompare a b ≤ 0 ↔ a ≤ b := by
  simp only [constEnv]
  split_ifs with h1 h2
  · constructor
    · intro _; exact le_of_lt h1
    · intro _; norm_num
  · constructor
    · intro _; exact le_of_eq h2
    · intro _; norm_num
  · constructor
    · intro h; norm_num at h
    · intro h
      exact absurd (lt_of_le_of_ne h h2) h1

theorem constEnv_consistentCompare (r : ℚ) : (constEnv r).ConsistentCompare :=
  ⟨fun a b => by rw [constEnv_compare_le, constEnv_compare_le]; exact le_total a b,
   fun a b c => by
    rw [constEnv_compare_le, constEnv_compare_le, constEnv_compare_le]; exact le_trans⟩

/-- Claim C12: for every population, filter text and sort key, the result of the query
layer is the filtered sequence stably sorted by the key: non-increasing cpu for `cpu`
(values 10, 90, 50 give 90, 50, 10), non-increasing memory for `memory`, ascending name
in the order of a consistent `localeCompare` for `name`, and ascending pid for every
other key (`pid` or unrecognized).  Records that tie on the key keep their filtered
order: the records of any one key value appear in the result as in the filtered
sequence, and a record placed before another in the filtered sequence stays before it
whenever the comparator does not put it after. -/
theorem filteredProcesses_sorted (env : Env) (searchTerm sortBy : String)
    (ps : List ProcessRecord) :
    (sortBy = "cpu" →
      (filteredProcesses env searchTerm sortBy ps).Sorted (fun a b => a.cpu ≥ b.cpu) ∧
      ∀ v : ℚ, (filteredProcesses env searchTerm sortBy ps).filter (fun p => p.cpu = v)
        = (filterStep env searchTerm ps).filter (fun p => p.cpu = v)) ∧
    (sortBy = "memory" →
      (filteredProcesses env searchTerm sortBy ps).Sorted (fun a b => a.memory ≥ b.memory) ∧
      ∀ v : ℚ, (filteredProcesses env searchTerm sortBy ps).filter (fun p => p.memory = v)
        = (filterStep env searchTerm ps).filter (fun p => p.memory = v)) ∧
    (sortBy = "name" → env.ConsistentCompare →
      (filteredProcesses env searchTerm sortBy ps).Sorted
        (fun a b => env.localeCompare a.name b.name ≤ 0)) ∧
    (sortBy ≠ "cpu" → sortBy ≠ "memory" → sortBy ≠ "name" →
      (filteredProcesses env searchTerm sortBy ps).Sorted (fun a b => a.pid ≤ b.pid) ∧
      ∀ v : ℕ, (filteredProcesses env searchTerm sortBy ps).filter (fun p => p.pid = v)
        = (filterStep env searchTerm ps).filter (fun p => p.pid = v)) ∧
    (∀ a b : ProcessRecord, compareFn env sortBy a b ≤ 0 →
      [a, b].Sublist (filterStep env searchTerm ps) →
      [a, b].Sublist (filteredProcesses env searchTerm sortBy ps)) ∧
    (filteredProcesses env "" "cpu" sortSample).map (fun p => p.cpu) = [90, 50, 10] ∧
    filteredProcesses env "" "pid" sortSample = sortSample := by
  refine ⟨?_, ?_, ?_, ?_, ?_, ?_, ?_⟩
  · intro hk
    have hc : ∀ a b : ProcessRecord, compareFn env sortBy a b = b.cpu - a.cpu := by
      intro a b; simp [compareFn, hk]
    constructor
    · have := jsSort_sorted (compareFn env sortBy)
        (by intro a b; rw [hc, hc]; rcases le_total a.cpu b.cpu with h | h
            · right; linarith
            · left; linarith)
        (by intro a b c; rw [hc, hc, hc]; intro h1 h2; linarith)
        (filterStep env searchTerm ps)
      exact this.imp (by intro a b h; rw [hc] at h; show b.cpu ≤ a.cpu; linarith)
    · intro v
      apply jsSort_filter_eq
      intro a b ha hb
      rw [hc]
      simp only [decide_eq_true_eq] at ha hb
      rw [ha, hb]; simp
  · intro hk
    have hc : ∀ a b : ProcessRecord, compareFn env sortBy a b = b.memory - a.memory := by
      intro a b; simp [compareFn, hk]
    constructor
    · have := jsSort_sorted (compareFn env sortBy)
        (by intro a b; rw [hc, hc]; rcases le_total a.memory b.memory with h | h
            · right; linarith
            · left; linarith)
        (by intro a b c; rw [hc, hc, hc]; intro h1 h2; linarith)
        (filterStep env searchTerm ps)
      exact this.imp (by intro a b h; rw [hc] at h; show b.memory ≤ a.memory; linarith)
    · intro v
      apply jsSort_filter_eq
      intro a b ha hb
      rw [hc]
      simp only [decide_eq_true_eq] at ha hb
      rw [ha, hb]; simp
  · intro hk hcons
    have hc : ∀ a b : ProcessRecord,
        compareFn env sortBy a b = env.localeCompare a.name b.name := by
      intro a b; simp [compareFn, hk]
    have := jsSort_sorted (compareFn env sortBy)
      (by intro a b; rw [hc, hc]; exact hcons.1 _ _)
      (by intro a b c; rw [hc, hc, hc]; exact hcons.2 _ _ _)
      (filterStep env searchTerm ps)
    exact this.imp (by intro a b h; rw [hc] at h; exact h)
  · intro h1 h2 h3
    have hc : ∀ a b : ProcessRecord,
        compareFn env sortBy a b = (a.pid : ℚ) - (b.pid : ℚ) := by
      intro a b; simp [compareFn, h1, h2, h3]
    have hle : ∀ a b : ProcessRecord, compareFn env sortBy a b ≤ 0 ↔ a.pid ≤ b.pid := by
      intro a b
      rw [hc, sub_nonpos, Nat.cast_le]
    constructor
    · have := jsSort_sorted (compareFn env sortBy)
        (by intro a b; rw [hle, hle]; exact le_total _ _)
        (by intro a b c; rw [hle, hle, hle]; exact le_trans)
        (filterStep env searchTerm ps)
      exact this.imp (by intro a b h; exact (hle a b).mp h)
    · intro v
      apply jsSort_filter_eq
      intro a b ha hb
      rw [hle]
      simp only [decide_eq_true_eq] at ha hb
      rw [ha, hb]
  · intro a b hab h
    exact jsSort_pair _ _ a b hab h
  · rw [filteredProcesses, filterStep_empty]
    norm_num [jsSort, sortSample, cpuRecord, List.insertionSort, List.orderedInsert, compareFn]
  · have e1 : ("pid" : String) ≠ "cpu" := by decide
    have e2 : ("pid" : String) ≠ "memory" := by decide
    have e3 : ("pid" : String) ≠ "name" := by decide
    rw [filteredProcesses, filterStep_empty]
    norm_num [jsSort, sortSample, cpuRecord, List.insertionSort, List.orderedInsert,
      compareFn, e1, e2, e3]

/-- Witness of C12 for the key `name`: the environment `constEnv (1/2)`, whose
`localeCompare` is a consistent order of strings, and the three sample records. -/
theorem filteredProcesses_sorted_witness :
    (constEnv (1 / 2)).ConsistentCompare ∧
    (filteredProcesses (constEnv (1 / 2)) "" "name" sortSample).Sorted
      (fun a b => (constEnv (1 / 2)).localeCompare a.name b.name ≤ 0) :=
  ⟨constEnv_consistentCompare _,
   (filteredProcesses_sorted (constEnv (1 / 2)) "" "name" sortSample).2.2.1 rfl
     (constEnv_consistentCompare _)⟩

/-! ## Population generator -/

theorem generateFrom_length (env : Env) (names : List String) (i k : ℕ) :
    (generateFrom env names i k).1.length = names.length := by
  induction names generalizing i k with
  | nil => rfl
  | cons n ns ih => simp [generateFrom, ih]

theorem generateFrom_get (env : Env) (names : List String) (i k j : ℕ) (p : ProcessRecord)
    (h : (generateFrom env names i k).1[j]? = some p) :
    p.pid = 1000 + (i + j) ∧ names[j]? = some p.name ∧
      p.user = (if (i + j) % 3 = 0 then "root" else "user") := by
  induction names generalizing i k j with
  | nil => simp [generateFrom] at h
  | cons n ns ih =>
    cases j with
    | zero =>
      simp only [generateFrom, List.getElem?_cons_zero, Option.some.injEq] at h
      subst h
      simp [generateRecord]
    | succ j =>
      simp only [generateFrom, List.getElem?_cons_succ] at h
      have := ih (i + 1) _ j h
      simpa [Nat.add_assoc, Nat.add_comm 1 j] using this

theorem generateProcesses_names (env : Env) (k : ℕ) :
    (generateProcesses env k).1.map (fun p => p.name) = processNames := by
  simp [generateProcesses, generateFrom, generateRecord, processNames]

theorem generateProcesses_pids (env : Env) (k : ℕ) :
    (generateProcesses env k).1.map (fun p => p.pid)
      = [1000, 1001, 1002, 1003, 1004, 1005, 1006, 1007, 1008, 1009, 1010, 1011, 1012,
         1013, 1014] := by
  simp [generateProcesses, generateFrom, generateRecord, processNames]

theorem generateProcesses_users (env : Env) (k : ℕ) :
    (generateProcesses env k).1.map (fun p => p.user)
      = ["root", "user", "user", "root", "user", "user", "root", "user", "user", "root",
         "user", "user", "root", "user", "user"] := by
  simp [generateProcesses, generateFrom, generateRecord, processNames]

/-- Claim C13: for every output of the random source, the population generator returns
exactly 15 records, one per catalog name in catalog order, with pid `1000 + index` (the
pids are exactly 1000 to 1014 and unique) and owner `root` exactly at the indices 0, 3,
6, 9, 12 and `user` at every other index; this is the population of either component
after mounting. -/
theorem generateProcesses_spec (env : Env) (k : ℕ) :
    (generateProcesses env k).1.length = 15 ∧
    (generateProcesses env k).1.map (fun p => p.name) = processNames ∧
    (generateProcesses env k).1.map (fun p => p.pid) = List.range' 1000 15 ∧
    ((generateProcesses env k).1.map (fun p => p.pid)).Nodup ∧
    (generateProcesses env k).1.map (fun p => p.user)
      = ["root", "user", "user", "root", "user", "user", "root", "user", "user", "root",
         "user", "user", "root", "user", "user"] ∧
    (∀ (i : ℕ) (p : ProcessRecord), (generateProcesses env k).1[i]? = some p →
      p.pid = 1000 + i ∧ processNames[i]? = some p.name ∧
      (p.user = "root" ↔ i ∈ [0, 3, 6, 9, 12]) ∧ (p.user = "user" ↔ i ∉ [0, 3, 6, 9, 12])) ∧
    (∀ c : Component, (mount env c).processes = (generateProcesses env 0).1) := by
  have hlen : (generateProcesses env k).1.length = 15 := generateFrom_length env _ _ _
  refine ⟨hlen, generateProcesses_names env k, ?_, ?_, generateProcesses_users env k, ?_,
    mount_processes env⟩
  · rw [generateProcesses_pids]; rfl
  · rw [generateProcesses_pids]; decide
  · intro i p hp
    have hi : i < 15 := by
      rw [← hlen]
      exact (List.getElem?_eq_some_iff.mp hp).1
    obtain ⟨h1, h2, h3⟩ := generateFrom_get env processNames 0 k i p hp
    rw [Nat.zero_add] at h1 h3
    refine ⟨h1, h2, ?_, ?_⟩
    all_goals
      rw [h3]
      interval_cases i <;> simp

/-! ## Frame of the evolution step -/

theorem evolveRecord_frame (env : Env) (k : ℕ) (p : ProcessRecord) :
    (evolveRecord env k p).1
      = { p with cpu := (evolveRecord env k p).1.cpu,
                 memory := (evolveRecord env k p).1.memory,
                 state := (evolveRecord env k p).1.state } := by
  unfold evolveRecord
  split_ifs <;> rfl

theorem evolve_frame (env : Env) (k : ℕ) (ps : List ProcessRecord) :
    List.Forall₂ (fun p q => q = { p with cpu := q.cpu, memory := q.memory, state := q.state })
      ps (evolve env k ps).1 := by
  induction ps generalizing k with
  | nil => exact List.Forall₂.nil
  | cons p ps ih => exact List.Forall₂.cons (evolveRecord_frame env k p) (ih _)

theorem evolve_length (env : Env) (k : ℕ) (ps : List ProcessRecord) :
    (evolve env k ps).1.length = ps.length :=
  (evolve_frame env k ps).length_eq.symm

theorem evolve_identity (env : Env) (k : ℕ) (ps : List ProcessRecord) :
    (evolve env k ps).1.map identityOf = ps.map identityOf := by
  induction ps generalizing k with
  | nil => rfl
  | cons p ps ih =>
    simp only [evolve, List.map_cons, ih]
    congr 1
    rw [evolveRecord_frame]
    rfl

theorem evolve_pids (env : Env) (k : ℕ) (ps : List ProcessRecord) :
    (evolve env k ps).1.map (fun p => p.pid) = ps.map (fun p => p.pid) := by
  have h := congrArg (List.map Prod.fst) (evolve_identity env k ps)
  simpa [List.map_map, Function.comp, identityOf] using h

/-! ## Invariants of the reachable states -/

theorem run_invariant (env : Env) (c : Component) (Q : List ProcessRecord → Prop)
    (hgen : Q (generateProcesses env 0).1)
    (htick : ∀ k ps, Q ps → Q (evolve env k ps).1)
    (hkill : ∀ pid ps, Q ps → Q (killFilter pid ps))
    (cmds : List Command) : Q (run env c cmds).processes := by
  have key : ∀ (cs : List Command) (s : MonitorState), Q s.processes →
      Q (cs.foldl (step env c) s).processes := by
    intro cs
    induction cs with
    | nil => intro s hs; simpa using hs
    | cons cmd cs ih =>
      intro s hs
      rw [List.foldl_cons]
      apply ih
      cases cmd with
      | tick => rw [step_tick_processes]; exact htick _ _ hs
      | kill pid => rw [step_kill_processes]; exact hkill _ _ hs
  apply key
  rw [mount_processes]
  exact hgen

theorem run_pids_sorted (env : Env) (c : Component) (cmds : List Command) :
    ((run env c cmds).processes.map (fun p => p.pid)).Sorted (fun a b => a < b) := by
  apply run_invariant env c
    (fun ps => (ps.map (fun p => p.pid)).Sorted (fun a b => a < b))
  · have : (generateProcesses env 0).1.map (fun p => p.pid)
        = [1000, 1001, 1002, 1003, 1004, 1005, 1006, 1007, 1008, 1009, 1010, 1011, 1012,
           1013, 1014] := by
      simp [generateProcesses, generateFrom, generateRecord, processNames]
    show ((generateProcesses env 0).1.map (fun p => p.pid)).Sorted (fun a b => a < b)
    rw [this]
    decide
  · intro k ps h
    show ((evolve env k ps).1.map (fun p => p.pid)).Sorted (fun a b => a < b)
    rw [evolve_pids]
    exact h
  · intro pid ps h
    exact List.Pairwise.sublist ((List.filter_sublist ps).map _) h

theorem jsSort_eq_self_of_pids (env : Env) (sortBy : String) (h1 : sortBy ≠ "cpu")
    (h2 : sortBy ≠ "memory") (h3 : sortBy ≠ "name") (xs : List ProcessRecord)
    (hs : (xs.map (fun p => p.pid)).Sorted (fun a b => a < b)) :
    jsSort (compareFn env sortBy) xs = xs := by
  apply List.Sorted.insertionSort_eq
  have hp : xs.Pairwise (fun a b => a.pid < b.pid) := List.pairwise_map.mp hs
  refine hp.imp ?_
  intro a b hab
  simp only [compareFn, h1, h2, h3, if_false]
  rw [sub_nonpos, Nat.cast_le]
  exact le_of_lt hab

/-- Claim C14: in every state reached from the generated population by any sequence
of ticks and kills, in either component, the population is strictly ascending by pid;
hence the pids of the live population are unique, and sorting by pid returns the
filtered records in their population (creation) order. -/
theorem pids_strictly_ascending (env : Env) (c : Component) (cmds : List Command)
    (searchTerm : String) :
    ((run env c cmds).processes.map (fun p => p.pid)).Sorted (fun a b => a < b) ∧
    ((run env c cmds).processes.map (fun p => p.pid)).Nodup ∧
    filteredProcesses env searchTerm "pid" (run env c cmds).processes
      = filterStep env searchTerm (run env c cmds).processes := by
  have hs := run_pids_sorted env c cmds
  refine ⟨hs, ?_, ?_⟩
  · exact hs.imp (fun h => ne_of_lt h)
  · apply jsSort_eq_self_of_pids env "pid" (by decide) (by decide) (by decide)
    exact List.Pairwise.sublist ((List.filter_sublist _).map _) hs

/-- Claim C15: an evolution step preserves the length and the order of the population
and leaves the pid, name, owner and start time of every record unchanged: each record
after the step is the record before it with only `cpu`, `memory` and `state` replaced. -/
theorem evolve_frame_spec (env : Env) (k : ℕ) (ps : List ProcessRecord) :
    (evolve env k ps).1.length = ps.length ∧
    (evolve env k ps).1.map (fun p => (p.pid, p.name, p.user, p.startTime))
      = ps.map (fun p => (p.pid, p.name, p.user, p.startTime)) ∧
    List.Forall₂ (fun p q => q = { p with cpu := q.cpu, memory := q.memory, state := q.state })
      ps (evolve env k ps).1 ∧
    (∀ (c : Component) (s : MonitorState),
      (step env c s Command.tick).processes = (evolve env s.cursor s.processes).1) :=
  ⟨evolve_length env k ps, evolve_identity env k ps, evolve_frame env k ps,
    step_tick_processes env⟩

/-! ## Defined states -/

theorem jsIndex_states (r : ℚ) (h0 : 0 ≤ r) (h1 : r < 1) :
    0 ≤ ⌊r * (states.length : ℚ)⌋ ∧ ⌊r * (states.length : ℚ)⌋ < 4 ∧
    ∃ s, jsIndex states ⌊r * (states.length : ℚ)⌋ = some s := by
  have hlen : ((states.length : ℕ) : ℚ) = 4 := by norm_num [states]
  rw [hlen]
  have hlo : (0 : ℤ) ≤ ⌊r * 4⌋ := Int.floor_nonneg.mpr (by positivity)
  have hhi : ⌊r * 4⌋ < (4 : ℤ) := Int.floor_lt.mpr (by push_cast; linarith)
  refine ⟨hlo, hhi, ?_⟩
  generalize ⌊r * 4⌋ = n at hlo hhi
  interval_cases n <;> simp [jsIndex, states]

theorem jsIndex_tickStates_bounds (r : ℚ) (h0 : 0 ≤ r) (h1 : r < 1) :
    0 ≤ ⌊r * 3⌋ ∧ ⌊r * 3⌋ < 3 ∧ ∃ s, jsIndex tickStates ⌊r * 3⌋ = some s := by
  have hlo : (0 : ℤ) ≤ ⌊r * 3⌋ := Int.floor_nonneg.mpr (by positivity)
  have hhi : ⌊r * 3⌋ < (3 : ℤ) := Int.floor_lt.mpr (by push_cast; linarith)
  refine ⟨hlo, hhi, ?_⟩
  generalize ⌊r * 3⌋ = n at hlo hhi
  interval_cases n <;> simp [jsIndex, tickStates]

theorem generateFrom_state (env : Env) (h : env.UnitDraws) (names : List String) (i k : ℕ) :
    ∀ p ∈ (generateFrom env names i k).1, ∃ s, p.state = some s := by
  induction names generalizing i k with
  | nil => intro p hp; simp [generateFrom] at hp
  | cons n ns ih =>
    intro p hp
    simp only [generateFrom, List.mem_cons] at hp
    rcases hp with rfl | hp
    · exact (jsIndex_states _ (h (k + 2)).1 (h (k + 2)).2).2.2
    · exact ih _ _ p hp

theorem evolve_state (env : Env) (h : env.UnitDraws) (k : ℕ) (ps : List ProcessRecord)
    (hps : ∀ p ∈ ps, ∃ s, p.state = some s) :
    ∀ p ∈ (evolve env k ps).1, ∃ s, p.state = some s := by
  induction ps generalizing k with
  | nil => intro p hp; simp [evolve] at hp
  | cons q qs ih =>
    intro p hp
    simp only [evolve, List.mem_cons] at hp
    rcases hp with rfl | hp
    · by_cases hr : env.random (k + 2) ≤ 95 / 100
      · rw [evolveRecord_state_of_le env k q hr]
        exact hps q (List.mem_cons_self _ _)
      · rw [evolveRecord_state_of_gt env k q (not_le.mp hr)]
        exact (jsIndex_tickStates_bounds _ (h (k + 3)).1 (h (k + 3)).2).2.2
    · exact ih _ (fun x hx => hps x (List.mem_cons_of_mem _ hx)) p hp

/-- Claim C16: with every random draw in `[0, 1)`, in every state reached from the
generator by any sequence of ticks and kills the state of every record is one of
`Running`, `Sleeping`, `Waiting`, `Zombie`; for every draw `r` in `[0, 1)` the index
`floor (r * 4)` lies inside the 4-state list of the generator and `floor (r * 3)` inside
the 3-state list of the evolution step, so no lookup yields an undefined state. -/
theorem state_always_defined (env : Env) (h : env.UnitDraws) (c : Component)
    (cmds : List Command) :
    (∀ p ∈ (run env c cmds).processes,
      p.state = some ProcState.Running ∨ p.state = some ProcState.Sleeping ∨
      p.state = some ProcState.Waiting ∨ p.state = some ProcState.Zombie) ∧
    (∀ r : ℚ, 0 ≤ r → r < 1 →
      0 ≤ ⌊r * (states.length : ℚ)⌋ ∧ ⌊r * (states.length : ℚ)⌋ < (states.length : ℤ) ∧
      ∃ s, jsIndex states ⌊r * (states.length : ℚ)⌋ = some s) ∧
    (∀ r : ℚ, 0 ≤ r → r < 1 →
      0 ≤ ⌊r * 3⌋ ∧ ⌊r * 3⌋ < (tickStates.length : ℤ) ∧
      ∃ s, jsIndex tickStates ⌊r * 3⌋ = some s) := by
  refine ⟨?_, ?_, ?_⟩
  · intro p hp
    have hdef : ∃ s, p.state = some s := by
      apply run_forall env c (fun p => ∃ s, p.state = some s) _ _ cmds p hp
      · exact generateFrom_state env h _ _ _
      · intro k ps hps
        exact evolve_state env h k ps hps
    obtain ⟨s, hs⟩ := hdef
    rw [hs]
    cases s <;> simp
  · intro r h0 h1
    exact jsIndex_states r h0 h1
  · intro r h0 h1
    exact jsIndex_tickStates_bounds r h0 h1

/-- Witness of C16: every draw equal to `1/2`, component `ProcessMonitor`, a tick, a
kill, a tick. -/
theorem state_always_defined_witness :
    (constEnv (1 / 2)).UnitDraws ∧
    (∀ p ∈ (run (constEnv (1 / 2)) Component.ProcessMonitor
        [Command.tick, Command.kill 1003, Command.tick]).processes,
      p.state = some ProcState.Running ∨ p.state = some ProcState.Sleeping ∨
      p.state = some ProcState.Waiting ∨ p.state = some ProcState.Zombie) :=
  ⟨constEnv_unitDraws _ (by norm_num) (by norm_num),
   (state_always_defined (constEnv (1 / 2))
     (constEnv_unitDraws _ (by norm_num) (by norm_num)) Component.ProcessMonitor
     [Command.tick, Command.kill 1003, Command.tick]).1⟩

/-! ## Memory usage against the capacity -/

theorem mount_memory_seven_eighths (c : Component) :
    (mount (constEnv (7 / 8)) c).systemStats.memoryUsage = 26880 ∧
    (mount (constEnv (7 / 8)) c).systemStats.totalMemory = 16384 := by
  cases c <;>
  · simp [mount, statsEffect, generateProcesses, generateFrom, generateRecord, processNames,
      initialState, recompute, constEnv]
    norm_num [aggregate, totalMem, toFixed1]

/-- Claim C17: memory usage is not bounded by the fixed capacity.  With every draw of
the random source equal to `7/8` (in `[0, 1)`), the generated 15-record population has
the aggregated `memoryUsage` 26880, strictly greater than `totalMemory` = 16384, in
either component, and the memory percentage is `164.0625`, above 100, both as shown by
`App` and as `memoryUsagePercent` of `ProcessMonitor`; the aggregator stores the plain
sum of the memory values, without a cap. -/
theorem memory_exceeds_capacity :
    (constEnv (7 / 8)).UnitDraws ∧
    (generateProcesses (constEnv (7 / 8)) 0).1.length = 15 ∧
    (∀ c : Component,
      (mount (constEnv (7 / 8)) c).processes = (generateProcesses (constEnv (7 / 8)) 0).1 ∧
      (mount (constEnv (7 / 8)) c).systemStats.memoryUsage = 26880 ∧
      (mount (constEnv (7 / 8)) c).systemStats.totalMemory = 16384 ∧
      (mount (constEnv (7 / 8)) c).systemStats.totalMemory
        < (mount (constEnv (7 / 8)) c).systemStats.memoryUsage ∧
      memoryRatioPercent (mount (constEnv (7 / 8)) c).systemStats
        = JSNumber.fin (2625 / 16) ∧
      memoryUsagePercent (mount (constEnv (7 / 8)) c).systemStats
        = JSNumber.fin (2625 / 16) ∧
      (100 : ℚ) < 2625 / 16) ∧
    (∀ ps : List ProcessRecord,
      (aggregate ps).memoryUsage = (ps.map (fun p => p.memory)).sum) := by
  refine ⟨constEnv_unitDraws _ (by norm_num) (by norm_num), ?_, ?_, totalMem_eq_sum⟩
  · simp [generateProcesses, generateFrom, processNames]
  · intro c
    obtain ⟨h1, h2⟩ := mount_memory_seven_eighths c
    refine ⟨mount_processes _ c, h1, h2, ?_, ?_, ?_, by norm_num⟩
    · rw [h1, h2]; norm_num
    · rw [memoryRatioPercent, h1, h2]
      norm_num [jsDiv, jsMul]
    · rw [memoryUsagePercent, memoryRatioPercent, h1, h2]
      norm_num [jsDiv, jsMul, orZero]

/-! ## Rounding to doubles -/

theorem roundDouble_of_pos (q : ℚ) (e m : ℤ) (he : -1022 ≤ e) (hm0 : 0 ≤ m)
    (h1 : (2 : ℚ) ^ e ≤ q) (h2 : q < (2 : ℚ) ^ (e + 1))
    (hm : roundHalfEven (q / 2 ^ (e - 52)) = m)
    (hfin : (m : ℚ) * 2 ^ (e - 52) < 2 ^ (1024 : ℕ)) :
    roundDouble q = JSNumber.fin ((m : ℚ) * 2 ^ (e - 52)) := by
  have hpos : 0 < q := lt_of_lt_of_le (by positivity) h1
  have hlog : Int.log 2 |q| = e := by
    rw [abs_of_pos hpos]
    apply le_antisymm
    · have := (Int.lt_zpow_iff_log_lt (b := 2) (by norm_num) hpos).mp h2
      omega
    · exact (Int.zpow_le_iff_le_log (b := 2) (by norm_num) hpos).mp (by exact_mod_cast h1)
  have hnn : (0 : ℚ) ≤ (m : ℚ) * 2 ^ (e - 52) := by
    have hmq : (0 : ℚ) ≤ (m : ℚ) := by exact_mod_cast hm0
    exact mul_nonneg hmq (zpow_nonneg (by norm_num) _)
  unfold roundDouble
  simp only [hlog, max_eq_left he, hm]
  rw [if_neg (ne_of_gt hpos), abs_of_nonneg hnn, if_neg (not_le.mpr hfin)]

theorem cpuSum_step_1 :
    roundDouble (0 + 6699104445713613 / 562949953421312) = JSNumber.fin (6699104445713613 / 562949953421312) := by
  rw [roundDouble_of_pos _ (3) 6699104445713613 (by norm_num) (by norm_num) (by norm_num) (by norm_num)
    (by norm_num [roundHalfEven]) (by norm_num)]
  norm_num

theorem cpuSum_step_2 :
    roundDouble (6699104445713613 / 562949953421312 + 6699104445713613 / 562949953421312) = JSNumber.fin (6699104445713613 / 281474976710656) := by
  rw [roundDouble_of_pos _ (4) 6699104445713613 (by norm_num) (by norm_num) (by norm_num) (by norm_num)
    (by norm_num [roundHalfEven]) (by norm_num)]
  norm_num

theorem cpuSum_step_3 :
    roundDouble (6699104445713613 / 281474976710656 + 6699104445713613 / 562949953421312) = JSNumber.fin (2512164167142605 / 70368744177664) := by
  rw [roundDouble_of_pos _ (5) 5024328334285210 (by norm_num) (by norm_num) (by norm_num) (by norm_num)
    (by norm_num [roundHalfEven]) (by norm_num)]
  norm_num

theorem cpuSum_step_4 :
    roundDouble (2512164167142605 / 70368744177664 + 6699104445713613 / 562949953421312) = JSNumber.fin (6699104445713613 / 140737488355328) := by
  rw [roundDouble_of_pos _ (5) 6699104445713613 (by norm_num) (by norm_num) (by norm_num) (by norm_num)
    (by norm_num [roundHalfEven]) (by norm_num)]
  norm_num

theorem cpuSum_step_5 :
    roundDouble (6699104445713613 / 140737488355328 + 6699104445713613 / 562949953421312) = JSNumber.fin (119 / 2) := by
  rw [roundDouble_of_pos _ (5) 8373880557142016 (by norm_num) (by norm_num) (by norm_num) (by norm_num)
    (by norm_num [roundHalfEven]) (by norm_num)]
  norm_num

theorem cpuSum_step_6 :
    roundDouble (119 / 2 + 6699104445713613 / 562949953421312) = JSNumber.fin (2512164167142605 / 35184372088832) := by
  rw [roundDouble_of_pos _ (6) 5024328334285210 (by norm_num) (by norm_num) (by norm_num) (by norm_num)
    (by norm_num [roundHalfEven]) (by norm_num)]
  norm_num

theorem cpuSum_step_7 :
    roundDouble (2512164167142605 / 35184372088832 + 6699104445713613 / 562949953421312) = JSNumber.fin (1465429097499853 / 17592186044416) := by
  rw [roundDouble_of_pos _ (6) 5861716389999412 (by norm_num) (by norm_num) (by norm_num) (by norm_num)
    (by norm_num [roundHalfEven]) (by norm_num)]
  norm_num

theorem cpuSum_step_8 :
    roundDouble (1465429097499853 / 17592186044416 + 6699104445713613 / 562949953421312) = JSNumber.fin (3349552222856807 / 35184372088832) := by
  rw [roundDouble_of_pos _ (6) 6699104445713614 (by norm_num) (by norm_num) (by norm_num) (by norm_num)
    (by norm_num [roundHalfEven]) (by norm_num)]
  norm_num

theorem cpuSum_step_9 :
    roundDouble (3349552222856807 / 35184372088832 + 6699104445713613 / 562949953421312) = JSNumber.fin (942061562678477 / 8796093022208) := by
  rw [roundDouble_of_pos _ (6) 7536492501427816 (by norm_num) (by norm_num) (by norm_num) (by norm_num)
    (by norm_num [roundHalfEven]) (by norm_num)]
  norm_num

theorem cpuSum_step_10 :
    roundDouble (942061562678477 / 8796093022208 + 6699104445713613 / 562949953421312) = JSNumber.fin (4186940278571009 / 35184372088832) := by
  rw [roundDouble_of_pos _ (6) 8373880557142018 (by norm_num) (by norm_num) (by norm_num) (by norm_num)
    (by norm_num [roundHalfEven]) (by norm_num)]
  norm_num

theorem cpuSum_step_11 :
    roundDouble (4186940278571009 / 35184372088832 + 6699104445713613 / 562949953421312) = JSNumber.fin (2302817153214055 / 17592186044416) := by
  rw [roundDouble_of_pos _ (7) 4605634306428110 (by norm_num) (by norm_num) (by norm_num) (by norm_num)
    (by norm_num [roundHalfEven]) (by norm_num)]
  norm_num

theorem cpuSum_step_12 :
    roundDouble (2302817153214055 / 17592186044416 + 6699104445713613 / 562949953421312) = JSNumber.fin (5024328334285211 / 35184372088832) := by
  rw [roundDouble_of_pos _ (7) 5024328334285211 (by norm_num) (by norm_num) (by norm_num) (by norm_num)
    (by norm_num [roundHalfEven]) (by norm_num)]
  norm_num

theorem cpuSum_step_13 :
    roundDouble (5024328334285211 / 35184372088832 + 6699104445713613 / 562949953421312) = JSNumber.fin (680377795267789 / 4398046511104) := by
  rw [roundDouble_of_pos _ (7) 5443022362142312 (by norm_num) (by norm_num) (by norm_num) (by norm_num)
    (by norm_num [roundHalfEven]) (by norm_num)]
  norm_num

theorem cpuSum_step_14 :
    roundDouble (680377795267789 / 4398046511104 + 6699104445713613 / 562949953421312) = JSNumber.fin (5861716389999413 / 35184372088832) := by
  rw [roundDouble_of_pos _ (7) 5861716389999413 (by norm_num) (by norm_num) (by norm_num) (by norm_num)
    (by norm_num [roundHalfEven]) (by norm_num)]
  norm_num

theorem cpuSum_step_15 :
    roundDouble (5861716389999413 / 35184372088832 + 6699104445713613 / 562949953421312) = JSNumber.fin (3140205208928257 / 17592186044416) := by
  rw [roundDouble_of_pos _ (7) 6280410417856514 (by norm_num) (by norm_num) (by norm_num) (by norm_num)
    (by norm_num [roundHalfEven]) (by norm_num)]
  norm_num

theorem memSum_step_1 :
    roundDouble (0 + 4287215739024179 / 17592186044416) = JSNumber.fin (4287215739024179 / 17592186044416) := by
  rw [roundDouble_of_pos _ (7) 8574431478048358 (by norm_num) (by norm_num) (by norm_num) (by norm_num)
    (by norm_num [roundHalfEven]) (by norm_num)]
  norm_num

theorem memSum_step_2 :
    roundDouble (4287215739024179 / 17592186044416 + 4287215739024179 / 17592186044416) = JSNumber.fin (4287215739024179 / 8796093022208) := by
  rw [roundDouble_of_pos _ (8) 8574431478048358 (by norm_num) (by norm_num) (by norm_num) (by norm_num)
    (by norm_num [roundHalfEven]) (by norm_num)]
  norm_num

theorem memSum_step_3 :
    roundDouble (4287215739024179 / 8796093022208 + 4287215739024179 / 17592186044416) = JSNumber.fin (1607705902134067 / 2199023255552) := by
  rw [roundDouble_of_pos _ (9) 6430823608536268 (by norm_num) (by norm_num) (by norm_num) (by norm_num)
    (by norm_num [roundHalfEven]) (by norm_num)]
  norm_num

theorem memSum_step_4 :
    roundDouble (1607705902134067 / 2199023255552 + 4287215739024179 / 17592186044416) = JSNumber.fin (4287215739024179 / 4398046511104) := by
  rw [roundDouble_of_pos _ (9) 8574431478048358 (by norm_num) (by norm_num) (by norm_num) (by norm_num)
    (by norm_num [roundHalfEven]) (by norm_num)]
  norm_num

theorem memSum_step_5 :
    roundDouble (4287215739024179 / 4398046511104 + 4287215739024179 / 17592186044416) = JSNumber.fin (2437 / 2) := by
  rw [roundDouble_of_pos _ (10) 5359019673780224 (by norm_num) (by norm_num) (by norm_num) (by norm_num)
    (by norm_num [roundHalfEven]) (by norm_num)]
  norm_num

theorem memSum_step_6 :
    roundDouble (2437 / 2 + 4287215739024179 / 17592186044416) = JSNumber.fin (6430823608536269 / 4398046511104) := by
  rw [roundDouble_of_pos _ (10) 6430823608536269 (by norm_num) (by norm_num) (by norm_num) (by norm_num)
    (by norm_num [roundHalfEven]) (by norm_num)]
  norm_num

theorem memSum_step_7 :
    roundDouble (6430823608536269 / 4398046511104 + 4287215739024179 / 17592186044416) = JSNumber.fin (3751313771646157 / 2199023255552) := by
  rw [roundDouble_of_pos _ (10) 7502627543292314 (by norm_num) (by norm_num) (by norm_num) (by norm_num)
    (by norm_num [roundHalfEven]) (by norm_num)]
  norm_num

theorem memSum_step_8 :
    roundDouble (3751313771646157 / 2199023255552 + 4287215739024179 / 17592186044416) = JSNumber.fin (8574431478048359 / 4398046511104) := by
  rw [roundDouble_of_pos _ (10) 8574431478048359 (by norm_num) (by norm_num) (by norm_num) (by norm_num)
    (by norm_num [roundHalfEven]) (by norm_num)]
  norm_num

theorem memSum_step_9 :
    roundDouble (8574431478048359 / 4398046511104 + 4287215739024179 / 17592186044416) = JSNumber.fin (2411558853201101 / 1099511627776) := by
  rw [roundDouble_of_pos _ (11) 4823117706402202 (by norm_num) (by norm_num) (by norm_num) (by norm_num)
    (by norm_num [roundHalfEven]) (by norm_num)]
  norm_num

theorem memSum_step_10 :
    roundDouble (2411558853201101 / 1099511627776 + 4287215739024179 / 17592186044416) = JSNumber.fin (2437) := by
  rw [roundDouble_of_pos _ (11) 5359019673780224 (by norm_num) (by norm_num) (by norm_num) (by norm_num)
    (by norm_num [roundHalfEven]) (by norm_num)]
  norm_num

theorem memSum_step_11 :
    roundDouble (2437 + 4287215739024179 / 17592186044416) = JSNumber.fin (2947460820579123 / 1099511627776) := by
  rw [roundDouble_of_pos _ (11) 5894921641158246 (by norm_num) (by norm_num) (by norm_num) (by norm_num)
    (by norm_num [roundHalfEven]) (by norm_num)]
  norm_num

theorem memSum_step_12 :
    roundDouble (2947460820579123 / 1099511627776 + 4287215739024179 / 17592186044416) = JSNumber.fin (1607705902134067 / 549755813888) := by
  rw [roundDouble_of_pos _ (11) 6430823608536268 (by norm_num) (by norm_num) (by norm_num) (by norm_num)
    (by norm_num [roundHalfEven]) (by norm_num)]
  norm_num

theorem memSum_step_13 :
    roundDouble (1607705902134067 / 549755813888 + 4287215739024179 / 17592186044416) = JSNumber.fin (3483362787957145 / 1099511627776) := by
  rw [roundDouble_of_pos _ (11) 6966725575914290 (by norm_num) (by norm_num) (by norm_num) (by norm_num)
    (by norm_num [roundHalfEven]) (by norm_num)]
  norm_num

theorem memSum_step_14 :
    roundDouble (3483362787957145 / 1099511627776 + 4287215739024179 / 17592186044416) = JSNumber.fin (937828442911539 / 274877906944) := by
  rw [roundDouble_of_pos _ (11) 7502627543292312 (by norm_num) (by norm_num) (by norm_num) (by norm_num)
    (by norm_num [roundHalfEven]) (by norm_num)]
  norm_num

theorem memSum_step_15 :
    roundDouble (937828442911539 / 274877906944 + 4287215739024179 / 17592186044416) = JSNumber.fin (4019264755335167 / 1099511627776) := by
  rw [roundDouble_of_pos _ (11) 8038529510670334 (by norm_num) (by norm_num) (by norm_num) (by norm_num)
    (by norm_num [roundHalfEven]) (by norm_num)]
  norm_num

theorem cpuQuotient_round :
    roundDouble (3140205208928257 / 17592186044416 / ((15 : ℕ) : ℚ)) = JSNumber.fin (6699104445713615 / 562949953421312) := by
  rw [roundDouble_of_pos _ (3) 6699104445713615 (by norm_num) (by norm_num) (by norm_num) (by norm_num)
    (by norm_num [roundHalfEven]) (by norm_num)]
  norm_num

/-! ## Aggregator in the arithmetic of the host -/

theorem orZero_of_ne_nan (x : JSNumber) (h : x ≠ JSNumber.nan) : orZero x = x := by
  cases x with
  | nan => exact absurd rfl h
  | posInf => rfl
  | negInf => rfl
  | fin q => exact orZero_fin q

theorem addFinite_ne_nan (A : HostArith) (s : JSNumber) (x : ℚ) (h : s ≠ JSNumber.nan) :
    addFinite A s x ≠ JSNumber.nan := by
  cases s with
  | nan => exact absurd rfl h
  | posInf => exact fun h => JSNumber.noConfusion h
  | negInf => exact fun h => JSNumber.noConfusion h
  | fin a => exact A.round_ne_nan _

theorem foldl_addFinite_ne_nan (A : HostArith) (xs : List ℚ) (s : JSNumber)
    (h : s ≠ JSNumber.nan) : xs.foldl (addFinite A) s ≠ JSNumber.nan := by
  induction xs generalizing s with
  | nil => exact h
  | cons x xs ih => exact ih _ (addFinite_ne_nan A s x h)

theorem hostSum_ne_nan (A : HostArith) (xs : List ℚ) : hostSum A xs ≠ JSNumber.nan :=
  foldl_addFinite_ne_nan A xs _ (fun h => JSNumber.noConfusion h)

theorem divCount_ne_nan (A : HostArith) (x : JSNumber) (n : ℕ) (hn : n ≠ 0)
    (h : x ≠ JSNumber.nan) : divCount A x n ≠ JSNumber.nan := by
  cases x with
  | nan => exact absurd rfl h
  | posInf => exact fun h => JSNumber.noConfusion h
  | negInf => exact fun h => JSNumber.noConfusion h
  | fin a =>
    simp only [divCount, if_neg hn]
    exact A.round_ne_nan _

theorem mathMin_ne_nan (a : ℚ) (x : JSNumber) (h : x ≠ JSNumber.nan) :
    mathMin a x ≠ JSNumber.nan := by
  cases x with
  | nan => exact absurd rfl h
  | posInf => exact fun h => JSNumber.noConfusion h
  | negInf => exact fun h => JSNumber.noConfusion h
  | fin q => exact fun h => JSNumber.noConfusion h

theorem hostTotalCpu_eq_hostSum (A : HostArith) (ps : List ProcessRecord) :
    hostTotalCpu A ps = hostSum A (ps.map (fun p => p.cpu)) := by
  unfold hostTotalCpu hostSum
  rw [List.foldl_map]

theorem hostTotalMem_eq_hostSum (A : HostArith) (ps : List ProcessRecord) :
    hostTotalMem A ps = hostSum A (ps.map (fun p => p.memory)) := by
  unfold hostTotalMem hostSum
  rw [List.foldl_map]

theorem foldl_addFinite_exact (xs : List ℚ) (a : ℚ) :
    xs.foldl (addFinite exactArith) (JSNumber.fin a) = JSNumber.fin (a + xs.sum) := by
  induction xs generalizing a with
  | nil => simp
  | cons x xs ih =>
    simp only [List.foldl_cons, List.sum_cons]
    rw [show addFinite exactArith (JSNumber.fin a) x = JSNumber.fin (a + x) from rfl, ih,
      add_assoc]

theorem hostSum_exact (xs : List ℚ) : hostSum exactArith xs = JSNumber.fin xs.sum := by
  unfold hostSum
  rw [foldl_addFinite_exact, zero_add]

/-- In exact arithmetic the aggregator of the host is the aggregator `aggregate`. -/
theorem aggregateHost_exact (ps : List ProcessRecord) :
    (aggregateHost exactArith ps).cpuUsage = (aggregate ps).cpuUsage ∧
    (aggregateHost exactArith ps).memoryUsage = JSNumber.fin (aggregate ps).memoryUsage ∧
    (aggregateHost exactArith ps).totalMemory = (aggregate ps).totalMemory ∧
    (aggregateHost exactArith ps).activeProcesses = (aggregate ps).activeProcesses := by
  refine ⟨?_, ?_, rfl, rfl⟩
  · simp only [aggregateHost, aggregate, hostTotalCpu_eq_hostSum, hostSum_exact,
      totalCpu_eq_sum, divCount, jsDiv]
    by_cases hn : ps.length = 0
    · have : ps = [] := List.length_eq_zero.mp hn
      subst this
      simp
    · have hq : ((ps.length : ℕ) : ℚ) ≠ 0 := by exact_mod_cast hn
      simp only [if_neg hn, if_neg hq]
      rfl
  · simp only [aggregateHost, aggregate, hostTotalMem_eq_hostSum, hostSum_exact,
      totalMem_eq_sum]

/-- Claim C4: for every non-empty population the aggregator returns, in the arithmetic
of the host, `cpuUsage = min(100, sum of cpu / number of records)` (the guard `|| 0`
leaves the quotient as it is, and the result is never `NaN`), `memoryUsage` = the sum of
all memory values, `totalMemory = 16384`, and `activeProcesses` = the number of records
whose state is `Running`, which never exceeds the population size.  The sums are the
left-to-right sums of the host, every partial sum and the quotient being rounded by it;
in exact arithmetic they are the mathematical sum and quotient. -/
theorem aggregateHost_of_ne_nil (A : HostArith) (ps : List ProcessRecord) (h : ps ≠ []) :
    (aggregateHost A ps).cpuUsage
      = mathMin 100 (divCount A (hostSum A (ps.map (fun p => p.cpu))) ps.length) ∧
    (aggregateHost A ps).cpuUsage ≠ JSNumber.nan ∧
    (aggregateHost A ps).memoryUsage = hostSum A (ps.map (fun p => p.memory)) ∧
    (aggregateHost A ps).totalMemory = 16384 ∧
    (aggregateHost A ps).activeProcesses
      = ps.countP (fun p => p.state = some ProcState.Running) ∧
    (aggregateHost A ps).activeProcesses ≤ ps.length ∧
    (aggregateHost exactArith ps).cpuUsage
      = JSNumber.fin (min 100 ((ps.map (fun p => p.cpu)).sum / (ps.length : ℚ))) ∧
    (aggregateHost exactArith ps).memoryUsage
      = JSNumber.fin ((ps.map (fun p => p.memory)).sum) := by
  have hn : ps.length ≠ 0 := fun h0 => h (List.length_eq_zero.mp h0)
  have hq : ∀ B : HostArith,
      divCount B (hostSum B (ps.map (fun p => p.cpu))) ps.length ≠ JSNumber.nan :=
    fun B => divCount_ne_nan B _ _ hn (hostSum_ne_nan B _)
  have hcpu : ∀ B : HostArith, (aggregateHost B ps).cpuUsage
      = mathMin 100 (divCount B (hostSum B (ps.map (fun p => p.cpu))) ps.length) := by
    intro B
    simp only [aggregateHost, hostTotalCpu_eq_hostSum, orZero_of_ne_nan _ (hq B)]
  refine ⟨hcpu A, ?_, hostTotalMem_eq_hostSum A ps, rfl, ?_, List.length_filter_le _ _, ?_, ?_⟩
  · rw [hcpu A]
    exact mathMin_ne_nan _ _ (hq A)
  · simp [aggregateHost, running, List.countP_eq_length_filter]
  · rw [(aggregateHost_exact ps).1]
    exact cpuUsage_of_ne_nil ps h
  · rw [(aggregateHost_exact ps).2.1]
    show JSNumber.fin (totalMem ps) = _
    rw [totalMem_eq_sum]


/-! ## The aggregator on doubles -/

theorem foldl_addFinite_step (A : HostArith) (a x r : ℚ) (xs : List ℚ)
    (h : A.round (a + x) = JSNumber.fin r) :
    (x :: xs).foldl (addFinite A) (JSNumber.fin a)
      = xs.foldl (addFinite A) (JSNumber.fin r) := by
  simp only [List.foldl_cons, addFinite, h]

theorem divCount_fin (A : HostArith) (a r : ℚ) (n : ℕ) (hn : n ≠ 0)
    (h : A.round (a / (n : ℚ)) = JSNumber.fin r) :
    divCount A (JSNumber.fin a) n = JSNumber.fin r := by
  simp only [divCount, if_neg hn, h]

theorem doubleSample_cpu_sum :
    hostSum ieeeDouble (doubleSample.map (fun p => p.cpu))
      = JSNumber.fin (3140205208928257 / 17592186044416) := by
  have hl : doubleSample.map (fun p => p.cpu)
      = [
        6699104445713613 / 562949953421312, 6699104445713613 / 562949953421312,
        6699104445713613 / 562949953421312, 6699104445713613 / 562949953421312,
        6699104445713613 / 562949953421312, 6699104445713613 / 562949953421312,
        6699104445713613 / 562949953421312, 6699104445713613 / 562949953421312,
        6699104445713613 / 562949953421312, 6699104445713613 / 562949953421312,
        6699104445713613 / 562949953421312, 6699104445713613 / 562949953421312,
        6699104445713613 / 562949953421312, 6699104445713613 / 562949953421312,
        6699104445713613 / 562949953421312] := by
    simp [doubleSample, processNames, List.range, List.range.loop]
  rw [hl]
  unfold hostSum
  rw [foldl_addFinite_step ieeeDouble _ _ _ _ cpuSum_step_1]
  rw [foldl_addFinite_step ieeeDouble _ _ _ _ cpuSum_step_2]
  rw [foldl_addFinite_step ieeeDouble _ _ _ _ cpuSum_step_3]
  rw [foldl_addFinite_step ieeeDouble _ _ _ _ cpuSum_step_4]
  rw [foldl_addFinite_step ieeeDouble _ _ _ _ cpuSum_step_5]
  rw [foldl_addFinite_step ieeeDouble _ _ _ _ cpuSum_step_6]
  rw [foldl_addFinite_step ieeeDouble _ _ _ _ cpuSum_step_7]
  rw [foldl_addFinite_step ieeeDouble _ _ _ _ cpuSum_step_8]
  rw [foldl_addFinite_step ieeeDouble _ _ _ _ cpuSum_step_9]
  rw [foldl_addFinite_step ieeeDouble _ _ _ _ cpuSum_step_10]
  rw [foldl_addFinite_step ieeeDouble _ _ _ _ cpuSum_step_11]
  rw [foldl_addFinite_step ieeeDouble _ _ _ _ cpuSum_step_12]
  rw [foldl_addFinite_step ieeeDouble _ _ _ _ cpuSum_step_13]
  rw [foldl_addFinite_step ieeeDouble _ _ _ _ cpuSum_step_14]
  rw [foldl_addFinite_step ieeeDouble _ _ _ _ cpuSum_step_15]
  rfl

theorem doubleSample_mem_sum :
    hostSum ieeeDouble (doubleSample.map (fun p => p.memory))
      = JSNumber.fin (4019264755335167 / 1099511627776) := by
  have hl : doubleSample.map (fun p => p.memory)
      = [
        4287215739024179 / 17592186044416, 4287215739024179 / 17592186044416,
        4287215739024179 / 17592186044416, 4287215739024179 / 17592186044416,
        4287215739024179 / 17592186044416, 4287215739024179 / 17592186044416,
        4287215739024179 / 17592186044416, 4287215739024179 / 17592186044416,
        4287215739024179 / 17592186044416, 4287215739024179 / 17592186044416,
        4287215739024179 / 17592186044416, 4287215739024179 / 17592186044416,
        4287215739024179 / 17592186044416, 4287215739024179 / 17592186044416,
        4287215739024179 / 17592186044416] := by
    simp [doubleSample, processNames, List.range, List.range.loop]
  rw [hl]
  unfold hostSum
  rw [foldl_addFinite_step ieeeDouble _ _ _ _ memSum_step_1]
  rw [foldl_addFinite_step ieeeDouble _ _ _ _ memSum_step_2]
  rw [foldl_addFinite_step ieeeDouble _ _ _ _ memSum_step_3]
  rw [foldl_addFinite_step ieeeDouble _ _ _ _ memSum_step_4]
  rw [foldl_addFinite_step ieeeDouble _ _ _ _ memSum_step_5]
  rw [foldl_addFinite_step ieeeDouble _ _ _ _ memSum_step_6]
  rw [foldl_addFinite_step ieeeDouble _ _ _ _ memSum_step_7]
  rw [foldl_addFinite_step ieeeDouble _ _ _ _ memSum_step_8]
  rw [foldl_addFinite_step ieeeDouble _ _ _ _ memSum_step_9]
  rw [foldl_addFinite_step ieeeDouble _ _ _ _ memSum_step_10]
  rw [foldl_addFinite_step ieeeDouble _ _ _ _ memSum_step_11]
  rw [foldl_addFinite_step ieeeDouble _ _ _ _ memSum_step_12]
  rw [foldl_addFinite_step ieeeDouble _ _ _ _ memSum_step_13]
  rw [foldl_addFinite_step ieeeDouble _ _ _ _ memSum_step_14]
  rw [foldl_addFinite_step ieeeDouble _ _ _ _ memSum_step_15]
  rfl

theorem doubleSample_length : doubleSample.length = 15 := by
  simp [doubleSample, processNames]

theorem doubleSample_ne_nil : doubleSample ≠ [] := by
  intro h
  have hlen := doubleSample_length
  rw [h] at hlen
  simp at hlen

theorem doubleSample_running :
    doubleSample.countP (fun p => p.state = some ProcState.Running) = 15 := by
  simp [doubleSample, processNames, List.range, List.range.loop]

/-- Witness of C4 in the arithmetic of doubles, at the population generated when every
draw is `0.119` (15 records of cpu `11.9` and memory `243.7`): the stored `cpuUsage` is
the double printed as `11.900000000000004` and `memoryUsage` the double printed as
`3655.499999999999`. -/
theorem aggregateHost_of_ne_nil_witness :
    doubleSample ≠ [] ∧
    (aggregateHost ieeeDouble doubleSample).cpuUsage
      = JSNumber.fin (6699104445713615 / 562949953421312) ∧
    (aggregateHost ieeeDouble doubleSample).memoryUsage
      = JSNumber.fin (4019264755335167 / 1099511627776) ∧
    (aggregateHost ieeeDouble doubleSample).totalMemory = 16384 ∧
    (aggregateHost ieeeDouble doubleSample).activeProcesses = 15 := by
  have h := aggregateHost_of_ne_nil ieeeDouble doubleSample doubleSample_ne_nil
  refine ⟨doubleSample_ne_nil, ?_, ?_, h.2.2.2.1, ?_⟩
  · rw [h.1, doubleSample_cpu_sum, doubleSample_length,
      divCount_fin ieeeDouble _ _ 15 (by norm_num) cpuQuotient_round]
    norm_num [mathMin]
  · rw [h.2.2.1, doubleSample_mem_sum]
  · rw [h.2.2.2.2.1, doubleSample_running]

end ProcessMonitor
